import Mathlib

/-!
# Verification of the market-intel dashboard aggregation engine

Shallow embedding of the two data-access clients of the repository:

* `DeltaLakeClient` (src/api/deltalake_adapter.py) — the "Lake client",
  operating on pandas DataFrames.  DataFrames are modelled as a `Frame`:
  a list of present column names plus a list of rows; a value that is
  NaN/None in pandas is `Option.none` here.  Python floats are modelled
  as exact rationals `ℚ`.
* `FabricGraphQLClient` (src/api/main.py) — the "Graph client", whose
  joined in-memory cache is a list of dicts; nulls in `price` and
  `days_on_lot` are coerced to `0` at build time (`item.get("price") or 0`),
  so cached records carry plain `ℚ` there.

Python's `sorted`/`list.sort` are stable; they are modelled by a stable
insertion sort.  Python dicts preserve insertion order; `defaultdict`
accumulators are modelled as association lists updated in place with new
keys appended at the end.
-/

namespace MarketIntel

/-! ## Rows and frames (Lake client, pandas model) -/

/-- One row of the joined inventory DataFrame.  `none` models NaN/None. -/
structure Row where
  stock_number : Option String
  price : Option ℚ
  days_on_lot : Option ℚ
  condition : Option String
  rv_type : Option String
  manufacturer : Option String
  model : Option String
  floorplan : Option String
  dealer_group : Option String
  state : Option String
  region : Option String
  city : Option String
  county : Option String
  dealership : Option String
  deriving Repr, DecidableEq

/-- The all-NaN row, used as a base for building test rows. -/
def Row.base : Row :=
  ⟨none, none, none, none, none, none, none, none, none, none, none, none, none, none⟩

/-- Column access for the string-typed columns (`df[column]` cell value). -/
def Row.getStr (r : Row) (col : String) : Option String :=
  if col = "condition" then r.condition
  else if col = "rv_type" then r.rv_type
  else if col = "manufacturer" then r.manufacturer
  else if col = "model" then r.model
  else if col = "floorplan" then r.floorplan
  else if col = "dealer_group" then r.dealer_group
  else if col = "state" then r.state
  else if col = "region" then r.region
  else if col = "city" then r.city
  else if col = "county" then r.county
  else if col = "dealership" then r.dealership
  else if col = "stock_number" then r.stock_number
  else none

/-- A pandas DataFrame: the set of columns physically present plus the rows.
A `Row` field whose column is absent from `cols` is never consulted by the
embedded operations (they check `cols` first, as the source checks
`df.columns`). -/
structure Frame where
  cols : List String
  rows : List Row
  deriving Repr, DecidableEq

/-- Python `value.split(',')` on the character list: split at every comma,
never collapsing (so `""` yields `[""]` and `",,"` yields three empties). -/
def splitCommaChars : List Char → List (List Char)
  | [] => [[]]
  | c :: rest =>
    match splitCommaChars rest with
    | [] => [[c]]
    | h :: t => if c = ',' then [] :: h :: t else (c :: h) :: t

/-- Python `str.strip()` (the whitespace classes relevant to this data). -/
def isWS (c : Char) : Bool := c = ' ' ∨ c = '\t' ∨ c = '\n' ∨ c = '\r'

def pyStrip (s : String) : String :=
  String.mk (((s.data.dropWhile isWS).reverse.dropWhile isWS).reverse)

/-- `DeltaLakeClient._parse_multi_value`: split a comma-separated filter
value, strip whitespace, drop empties
(`[v.strip() for v in value.split(',') if v.strip()]`). -/
def parseMultiValue (value : String) : List String :=
  if value = "" then []
  else (((splitCommaChars value.data).map (fun cs => pyStrip (String.mk cs))).filter
    (fun s => s ≠ ""))

/-- Row-level match used by `_apply_filter`: `df[column] == v` for a single
value and `df[column].isin(values)` otherwise.  Both compare the cell with
each listed value; a NaN cell matches nothing, so the two branches of the
source are one predicate here. -/
def rowMatches (r : Row) (col : String) (vs : List String) : Bool :=
  match r.getStr col with
  | some s => vs.contains s
  | none => false

/-- `DeltaLakeClient._apply_filter`: no-op for an empty value or an absent
column, otherwise keep the rows whose cell is among the parsed values.
`value = none` models passing Python `None`. -/
def applyFilter (f : Frame) (col : String) (value : Option String) : Frame :=
  match value with
  | none => f
  | some v =>
    if v = "" ∨ ¬ f.cols.contains col then f
    else ⟨f.cols, f.rows.filter (fun r => rowMatches r col (parseMultiValue v))⟩

/-! ## Stable descending sort

Python's `sorted(..., key=k, reverse=True)` and pandas' `sort_values`
applied to an already key-ordered frame are modelled by a stable insertion
sort by a key, descending: an element is placed before the first element
whose key is `≤` its own, so elements with equal keys keep their original
relative order. -/

/-- Insert `x` into `l` (assumed already sorted descending); `x` lands in
front of the first element whose key does not exceed `key x`. -/
def insDesc [LinearOrder β] (key : α → β) (x : α) : List α → List α
  | [] => [x]
  | y :: ys => if key y ≤ key x then x :: y :: ys else y :: insDesc key x ys

/-- Stable sort by `key`, descending. -/
def stableSortDesc [LinearOrder β] (key : α → β) : List α → List α
  | [] => []
  | x :: t => insDesc key x (stableSortDesc key t)

/-! ## Lake client: `_aggregate_by_fast`

pandas `df.groupby(column)` with its default `dropna=True` drops rows whose
grouping cell is NaN/None and emits the remaining group keys in ascending
order; the later `.fillna('Unknown')` on the key column therefore never
fires (group keys are never NaN).  `sort_values('count', ascending=False)`
over the key-ascending grouped frame is modelled as the stable descending
sort. -/

/-- Ascending order on strings: lexicographic on the character list
(pandas sorts string group keys this way). -/
def strAsc (a b : String) : Prop := a.data ≤ b.data

instance : DecidableRel strAsc := fun a b => inferInstanceAs (Decidable (a.data ≤ b.data))

instance : IsTotal String strAsc := ⟨fun a b => le_total a.data b.data⟩

instance : IsTrans String strAsc := ⟨fun _ _ _ h h' => le_trans h h'⟩

/-- The group keys produced by `df.groupby(column)`: distinct non-null
values of the column, ascending. -/
def keysAsc (rows : List Row) (col : String) : List String :=
  List.insertionSort strAsc (rows.filterMap (fun r => r.getStr col)).dedup

/-- Non-null prices of a row collection (`df['price']` without its NaNs). -/
def pricedOf (rows : List Row) : List ℚ := rows.filterMap Row.price

/-- pandas `mean` over non-null entries.  For an empty/all-NaN column pandas
yields NaN; the embedded callers either `fillna(0)` the result or never
evaluate it on an empty list, so `0` stands for that NaN here. -/
def meanQ (l : List ℚ) : ℚ := if l.length = 0 then 0 else l.sum / l.length

/-- One `AggregationBucket` row of the grouped result. -/
structure Bucket where
  name : String
  count : ℕ
  total_value : ℚ
  avg_price : ℚ
  min_price : ℚ
  max_price : ℚ
  avg_days_on_lot : Option ℚ
  deriving Repr, DecidableEq

/-- The aggregated row for one group key `k` of `groupby(col)`:
`count` counts non-null `stock_number`, the price statistics are over
non-null prices (`fillna` turns the NaN statistics of an unpriced group
into 0), `avg_days_on_lot` is not in the `fillna` mapping so its NaN
survives as `none`. -/
def groupOf (rows : List Row) (col k : String) : List Row :=
  rows.filter (fun r => r.getStr col = some k)

def statsFor (rows : List Row) (col : String) (k : String) : Bucket :=
  let g := groupOf rows col k
  let prices := pricedOf g
  let dols := g.filterMap Row.days_on_lot
  { name := k
    count := (g.filter (fun r => r.stock_number.isSome)).length
    total_value := prices.sum
    avg_price := meanQ prices
    min_price := prices.min?.getD 0
    max_price := prices.max?.getD 0
    avg_days_on_lot := if dols.length = 0 then none else some (dols.sum / (dols.length : ℚ)) }

/-- Grouped-and-sorted bucket list before the `head(limit)` truncation. -/
def aggregateByFastPre (rows : List Row) (col : String) : List Bucket :=
  stableSortDesc (fun b => b.count) ((keysAsc rows col).map (statsFor rows col))

/-- Python `if limit: grouped = grouped.head(limit)` — `limit=None` and
`limit=0` are both falsy and leave the list whole. -/
def takeIfLimit (limit : Option ℕ) (l : List Bucket) : List Bucket :=
  match limit with
  | none => l
  | some n => if n = 0 then l else l.take n

/-- `DeltaLakeClient._aggregate_by_fast`. -/
def aggregateByFast (f : Frame) (col : String) (limit : Option ℕ) : List Bucket :=
  if ¬ f.cols.contains col then []
  else takeIfLimit limit (aggregateByFastPre f.rows col)

/-! ## Lake client: `_build_aggregation_response`

The mask-building block accesses `inventory[column]` without a presence
check for `rv_type`, `dealer_group`, `manufacturer`, `condition`, `state`
and `price`, raising `KeyError` when the column is absent; only the
`model` and `floorplan` filters are guarded by `in inventory.columns`.
`Except.error col` models that `KeyError`.  Conjoining boolean masks and
then indexing once is equivalent to filtering sequentially, which is how
it is written here. -/

instance {e a : Type} [DecidableEq e] [DecidableEq a] : DecidableEq (Except e a) := fun x y =>
  match x, y with
  | .error u, .error v =>
    if h : u = v then isTrue (by rw [h]) else isFalse (fun he => h (Except.error.inj he))
  | .error _, .ok _ => isFalse (fun he => Except.noConfusion he)
  | .ok _, .error _ => isFalse (fun he => Except.noConfusion he)
  | .ok u, .ok v =>
    if h : u = v then isTrue (by rw [h]) else isFalse (fun he => h (Except.ok.inj he))

/-- Query parameters of the aggregation endpoints. -/
structure AggParams where
  rv_type : Option String
  dealer_group : Option String
  manufacturer : Option String
  condition : Option String
  state : Option String
  model : Option String
  floorplan : Option String
  min_price : Option ℚ
  max_price : Option ℚ
  deriving Repr, DecidableEq

def AggParams.noFilter : AggParams := ⟨none, none, none, none, none, none, none, none, none⟩

/-- One categorical conjunct of the mask.  `guarded` is true for the two
filters wrapped in `and col in inventory.columns`.  `.error col` models the
KeyError from indexing an absent column, and `.error "IndexError"` the
IndexError from `values[0]` when a truthy parameter comma-splits to no
values (e.g. `","`): in `inventory[col] == values[0]` the column is indexed
before `values[0]`, so the KeyError wins when both apply, while a guarded
filter skips an absent column before ever parsing. -/
def maskCat (f : Frame) (rows : List Row) (col : String) (v : Option String)
    (guarded : Bool) : Except String (List Row) :=
  match v with
  | none => .ok rows
  | some s =>
    if s = "" then .ok rows
    else if f.cols.contains col then
      if parseMultiValue s = [] then .error "IndexError"
      else .ok (rows.filter (fun r => rowMatches r col (parseMultiValue s)))
    else if guarded then .ok rows
    else .error col

/-- A categorical parameter is well-formed: if supplied and truthy, its
comma-split yields at least one non-empty value, so `values[0]` is safe. -/
def paramOk (v : Option String) : Bool :=
  match v with
  | none => true
  | some s => s == "" || !(parseMultiValue s).isEmpty

/-- All seven categorical parameters of a request are well-formed. -/
def aggParamsOk (p : AggParams) : Bool :=
  paramOk p.rv_type && paramOk p.dealer_group && paramOk p.manufacturer
    && paramOk p.condition && paramOk p.state && paramOk p.model && paramOk p.floorplan

/-- `inventory['price'] >= min_price` keeps rows with a non-null price at
least the bound (a NaN comparison is False in pandas). -/
def priceGE (q : ℚ) (r : Row) : Bool :=
  match r.price with
  | some p => q ≤ p
  | none => false

def priceLE (q : ℚ) (r : Row) : Bool :=
  match r.price with
  | some p => p ≤ q
  | none => false

def maskPriceMin (f : Frame) (rows : List Row) (mn : Option ℚ) : Except String (List Row) :=
  match mn with
  | none => .ok rows
  | some q => if f.cols.contains "price" then .ok (rows.filter (priceGE q)) else .error "price"

def maskPriceMax (f : Frame) (rows : List Row) (mx : Option ℚ) : Except String (List Row) :=
  match mx with
  | none => .ok rows
  | some q => if f.cols.contains "price" then .ok (rows.filter (priceLE q)) else .error "price"

/-- The filtered row set `df = inventory[mask]` of
`_build_aggregation_response`. -/
def maskFilteredRows (f : Frame) (p : AggParams) : Except String (List Row) := do
  let r1 ← maskCat f f.rows "rv_type" p.rv_type false
  let r2 ← maskCat f r1 "dealer_group" p.dealer_group false
  let r3 ← maskCat f r2 "manufacturer" p.manufacturer false
  let r4 ← maskCat f r3 "condition" p.condition false
  let r5 ← maskCat f r4 "state" p.state false
  let r6 ← maskCat f r5 "model" p.model true
  let r7 ← maskCat f r6 "floorplan" p.floorplan true
  let r8 ← maskPriceMin f r7 p.min_price
  maskPriceMax f r8 p.max_price

/-- `AggregatedSummaryResponse` (the keys of
`_empty_aggregation_response`; the two sales-velocity extras appended by
`_build_aggregation_response` are outside the claims and omitted). -/
structure AggResponse where
  total_units : ℕ
  total_value : ℚ
  avg_price : ℚ
  min_price : ℚ
  max_price : ℚ
  by_rv_type : List Bucket
  by_dealer_group : List Bucket
  by_manufacturer : List Bucket
  by_condition : List Bucket
  by_state : List Bucket
  by_region : List Bucket
  by_city : List Bucket
  by_county : List Bucket
  deriving Repr, DecidableEq

/-- `DeltaLakeClient._empty_aggregation_response`. -/
def emptyAggregationResponse : AggResponse :=
  ⟨0, 0, 0, 0, 0, [], [], [], [], [], [], [], []⟩

/-- `DeltaLakeClient._build_aggregation_response` (the on-demand branch;
the no-filter branch returns the startup snapshot, which is produced by
`_compute_aggregations_no_filter` from the same `_aggregate_by_fast`). -/
def buildAggregationResponse (f : Frame) (p : AggParams) : Except String AggResponse := do
  let rows ← maskFilteredRows f p
  if rows.length = 0 then
    .ok emptyAggregationResponse
  else
    let df : Frame := ⟨f.cols, rows⟩
    .ok
      { total_units := rows.length
        total_value := if f.cols.contains "price" then (pricedOf rows).sum else 0
        avg_price := if f.cols.contains "price" then meanQ (pricedOf rows) else 0
        min_price := if f.cols.contains "price" then (pricedOf rows).min?.getD 0 else 0
        max_price := if f.cols.contains "price" then (pricedOf rows).max?.getD 0 else 0
        by_rv_type := aggregateByFast df "rv_type" none
        by_dealer_group := aggregateByFast df "dealer_group" none
        by_manufacturer := aggregateByFast df "manufacturer" none
        by_condition := aggregateByFast df "condition" none
        by_state := aggregateByFast df "state" (some 65)
        by_region := if f.cols.contains "region" then aggregateByFast df "region" none else []
        by_city := if f.cols.contains "city" then aggregateByFast df "city" none else []
        by_county := if f.cols.contains "county" then aggregateByFast df "county" none else [] }

/-! ## Lake client: sales-velocity empty response -/

/-- A bucket of the sales-velocity breakdowns (shape of
`_aggregate_sales_by_fast_v2` output). -/
structure SalesBucket where
  name : String
  sold_count : ℕ
  avg_days_to_sell : Option ℚ
  total_value : ℚ
  avg_price : ℚ
  deriving Repr, DecidableEq

/-- `SalesVelocityResponse`: `none` models JSON null. -/
structure SalesVelocityResponse where
  total_sold : ℕ
  avg_days_to_sell : Option ℚ
  median_days_to_sell : Option ℚ
  min_days_to_sell : Option ℚ
  max_days_to_sell : Option ℚ
  avg_sale_price : Option ℚ
  total_sales_value : Option ℚ
  by_rv_type : List SalesBucket
  by_condition : List SalesBucket
  by_dealer_group : List SalesBucket
  by_manufacturer : List SalesBucket
  by_state : List SalesBucket
  by_region : List SalesBucket
  by_month : List SalesBucket
  deriving Repr, DecidableEq

/-- `DeltaLakeClient._empty_sales_velocity_response`, verbatim: `total_sold`
is 0 and the breakdowns are empty lists, but the six statistics are
`None`. -/
def emptySalesVelocityResponse : SalesVelocityResponse :=
  ⟨0, none, none, none, none, none, none, [], [], [], [], [], [], []⟩

/-! ## Graph client: joined inventory cache (`load_inventory_cache`)

The Graph client fetches raw inventory items and joins them in Python
against three dimension caches keyed by surrogate keys.  `item.get(k) or 0`
coerces a null (or zero) price / days_on_lot to `0`, so the joined record
carries plain rationals for those two fields. -/

/-- A raw inventory item as fetched from the fact table. -/
structure RawItem where
  stock_number : Option String
  price : Option ℚ
  condition : Option String
  days_on_lot : Option ℚ
  product_model_skey : Option ℕ
  product_skey : Option ℕ
  dealership_skey : Option ℕ
  deriving Repr, DecidableEq

structure ProductDim where
  rv_type : Option String
  manufacturer : Option String
  model : Option String
  model_year : Option String
  deriving Repr, DecidableEq

structure FloorDim where
  floorplan : Option String
  deriving Repr, DecidableEq

structure DealerDim where
  dealer_group : Option String
  state : Option String
  region : Option String
  city : Option String
  county : Option String
  dealership : Option String
  deriving Repr, DecidableEq

/-- A record of the Graph client's joined `_inventory_cache`. -/
structure CRec where
  stock_number : Option String
  price : ℚ
  condition : Option String
  days_on_lot : ℚ
  rv_type : Option String
  manufacturer : Option String
  model : Option String
  model_year : Option String
  floorplan : Option String
  dealer_group : Option String
  state : Option String
  region : Option String
  city : Option String
  county : Option String
  dealership : Option String
  location : String
  deriving Repr, DecidableEq

/-- Join one raw item against the dimension caches
(`self._products_cache.get(skey) or {}` and friends: a miss leaves every
dimension field null). -/
def joinItem (products : List (ℕ × ProductDim)) (floorplans : List (ℕ × FloorDim))
    (dealers : List (ℕ × DealerDim)) (it : RawItem) : CRec :=
  let pm := (it.product_model_skey.bind (fun n => products.lookup n)).getD ⟨none, none, none, none⟩
  let fp := (it.product_skey.bind (fun n => floorplans.lookup n)).getD ⟨none⟩
  let d := (it.dealership_skey.bind (fun n => dealers.lookup n)).getD
    ⟨none, none, none, none, none, none⟩
  -- location = f"{city}, {state}" if dealer_city and dealer_state else dealer_state or ""
  -- (dimension strings are taken to be non-empty when present)
  let location := match d.city, d.state with
    | some c, some s => c ++ ", " ++ s
    | _, _ => d.state.getD ""
  ⟨it.stock_number, it.price.getD 0, it.condition, it.days_on_lot.getD 0,
    pm.rv_type, pm.manufacturer, pm.model, pm.model_year, fp.floorplan,
    d.dealer_group, d.state, d.region, d.city, d.county, d.dealership, location⟩

/-- `FabricGraphQLClient.load_inventory_cache`: the joined in-memory cache. -/
def loadInventoryCache (items : List RawItem) (products : List (ℕ × ProductDim))
    (floorplans : List (ℕ × FloorDim)) (dealers : List (ℕ × DealerDim)) : List CRec :=
  items.map (joinItem products floorplans dealers)

/-! ## Graph client: `get_cached_inventory` and `get_filtered_aggregations` -/

/-- Python truthiness of an optional string parameter (`if dealer:`). -/
def optTrue (o : Option String) : Bool :=
  match o with
  | some s => s ≠ ""
  | none => false

/-- One `if param: filtered = [i for i in filtered if i.get(field) == param]`
step: a no-op for an absent or empty parameter. -/
def stepEq (l : List CRec) (field : CRec → Option String) (p : Option String) : List CRec :=
  match p with
  | some v => if v = "" then l else l.filter (fun r => field r = some v)
  | none => l

def stepMin (l : List CRec) (mp : Option ℚ) : List CRec :=
  match mp with
  | some q => l.filter (fun r => q ≤ r.price)
  | none => l

def stepMax (l : List CRec) (mp : Option ℚ) : List CRec :=
  match mp with
  | some q => l.filter (fun r => r.price ≤ q)
  | none => l

/-- `FabricGraphQLClient.get_cached_inventory`, with the hidden state made
explicit.  `filtered` starts as the cache list itself; each truthy filter
replaces it by a fresh list, and `filtered.sort(key=..., reverse=True)`
then sorts *in place* — so when no filter parameter was applied the cached
list itself is reordered.  The function returns (selected records, cache
after the call); the Python code finally maps each selected record to a
response dict, a reshaping irrelevant to the claims. -/
def mainGetCachedInventory (cache : List CRec)
    (dealer dealer_group rv_type manufacturer condition state : Option String)
    (min_price max_price : Option ℚ) (limit : ℕ) : List CRec × List CRec :=
  let f1 := stepEq cache CRec.dealership dealer
  let f2 := stepEq f1 CRec.dealer_group dealer_group
  let f3 := stepEq f2 CRec.rv_type rv_type
  let f4 := stepEq f3 CRec.manufacturer manufacturer
  let f5 := stepEq f4 CRec.condition condition
  let f6 := stepEq f5 CRec.state state
  let f7 := stepMin f6 min_price
  let f8 := stepMax f7 max_price
  let sortedL := stableSortDesc CRec.price f8
  let anyApplied := optTrue dealer || optTrue dealer_group || optTrue rv_type ||
    optTrue manufacturer || optTrue condition || optTrue state ||
    min_price.isSome || max_price.isSome
  (sortedL.take limit, if anyApplied then cache else sortedL)

/-- The in-memory filter chain of `get_filtered_aggregations` (same
equality filters, applied to the joined cache). -/
def mainFilterRecs (cache : List CRec) (rv_type dealer_group manufacturer condition state :
    Option String) (min_price max_price : Option ℚ) : List CRec :=
  let f1 := stepEq cache CRec.rv_type rv_type
  let f2 := stepEq f1 CRec.dealer_group dealer_group
  let f3 := stepEq f2 CRec.manufacturer manufacturer
  let f4 := stepEq f3 CRec.condition condition
  let f5 := stepEq f4 CRec.state state
  stepMax (stepMin f5 min_price) max_price

/-- `defaultdict` accumulator of `get_filtered_aggregations`:
`{"count": 0, "total_value": 0, "prices": []}`.  Only the `rv_type` and
`condition` dimensions ever append to `prices` in the source; `collect`
records which. -/
structure Acc where
  count : ℕ
  total_value : ℚ
  prices : List ℚ
  deriving Repr, DecidableEq

def Acc.push (collect : Bool) (price : ℚ) (a : Acc) : Acc :=
  ⟨a.count + 1, a.total_value + price,
    if collect && decide (0 < price) then a.prices ++ [price] else a.prices⟩

/-- Update the insertion-ordered association list at `k` (Python dicts keep
insertion order; a fresh key is appended at the end). -/
def bump (l : List (String × Acc)) (k : String) (price : ℚ) (collect : Bool) :
    List (String × Acc) :=
  match l with
  | [] => [(k, Acc.push collect price ⟨0, 0, []⟩)]
  | (k', a) :: t =>
    if k' = k then (k', Acc.push collect price a) :: t
    else (k', a) :: bump t k price collect

/-- The grouping loop: records whose field is null (or empty, Python
truthiness) are skipped — they do not enter any bucket. -/
def groupsBy (field : CRec → Option String) (collect : Bool) (recs : List CRec) :
    List (String × Acc) :=
  recs.foldl (fun l r =>
    match field r with
    | some v => if v = "" then l else bump l v r.price collect
    | none => l) []

/-- One output bucket of `get_filtered_aggregations.format_agg`: when no
prices were collected for the dimension, `avg_price` falls back to
`total_value / count` (the *total* count) and `min_price`/`max_price`
are 0. -/
def mainBucket (k : String) (a : Acc) : Bucket :=
  { name := k
    count := a.count
    total_value := a.total_value
    avg_price :=
      if a.prices.length ≠ 0 then a.prices.sum / (a.prices.length : ℚ)
      else if 0 < a.count then a.total_value / (a.count : ℚ) else 0
    min_price := a.prices.min?.getD 0
    max_price := a.prices.max?.getD 0
    avg_days_on_lot := none }

/-- `get_filtered_aggregations.format_agg`: stable sort of the insertion-
ordered groups by count descending (Python `sorted` is stable — ties stay
in dict insertion order, i.e. first-occurrence order), then truncate. -/
def mainFormatAgg (l : List (String × Acc)) (limit : ℕ) : List Bucket :=
  ((stableSortDesc (fun x => x.2.count) l).map (fun x => mainBucket x.1 x.2)).take limit

def mainAllPrices (recs : List CRec) : List ℚ :=
  recs.filterMap (fun r => if 0 < r.price then some r.price else none)

def mainTotalValue (recs : List CRec) : ℚ :=
  (recs.map CRec.price).sum

/-- `FabricGraphQLClient.get_filtered_aggregations` over the joined cache. -/
def mainGetFilteredAggregations (cache : List CRec)
    (rv_type dealer_group manufacturer condition state : Option String)
    (min_price max_price : Option ℚ) : AggResponse :=
  let filtered := mainFilterRecs cache rv_type dealer_group manufacturer condition state
    min_price max_price
  let allP := mainAllPrices filtered
  { total_units := filtered.length
    total_value := mainTotalValue filtered
    avg_price := if allP.length ≠ 0 then allP.sum / (allP.length : ℚ) else 0
    min_price := allP.min?.getD 0
    max_price := allP.max?.getD 0
    by_rv_type := mainFormatAgg (groupsBy CRec.rv_type true filtered) 10
    by_dealer_group := mainFormatAgg (groupsBy CRec.dealer_group false filtered) 10
    by_manufacturer := mainFormatAgg (groupsBy CRec.manufacturer false filtered) 10
    by_condition := mainFormatAgg (groupsBy CRec.condition true filtered) 10
    by_state := mainFormatAgg (groupsBy CRec.state false filtered) 65
    by_region := mainFormatAgg (groupsBy CRec.region false filtered) 10
    by_city := mainFormatAgg (groupsBy CRec.city false filtered) 20
    by_county := mainFormatAgg (groupsBy CRec.county false filtered) 15 }

/-! ## Graph client: precomputed snapshot (`build_aggregations_cache`)

The startup snapshot is built from server-side `groupBy` aggregations over
the surrogate keys, not from the joined cache.  The upstream `groupBy` is
modelled exactly: for each product key, `count/sum/avg(field: price)` are
the count/sum/mean of the *non-null* prices of that key's fact rows, with
a null server result coerced by `aggs.get(..) or 0`.  Group order from the
server is unspecified; first-occurrence order is used here (the theorems
below only depend on per-name lookups or on single-group inputs). -/

def gqlPrices (g : List RawItem) : List ℚ := g.filterMap RawItem.price

def gqlCount (g : List RawItem) : ℕ := (gqlPrices g).length

def gqlSum (g : List RawItem) : ℚ := (gqlPrices g).sum

def gqlAvg (g : List RawItem) : ℚ := meanQ (gqlPrices g)

/-- The product keys of the inventory `groupBy` (falsy keys — null or 0 —
are dropped by `if g.fields.skey`). -/
def skeysOf (items : List RawItem) : List ℕ :=
  ((items.filterMap RawItem.product_model_skey).filter (fun k => k ≠ 0)).dedup

def skeyGroup (items : List RawItem) (k : ℕ) : List RawItem :=
  items.filter (fun it => it.product_model_skey = some k)

/-- Accumulator of `build_aggregations_cache`:
`{"count": 0, "total_value": 0, "avg_prices": []}`; a per-key batch average
is recorded (with its count) only when positive. -/
structure WAcc where
  count : ℕ
  total_value : ℚ
  avg_prices : List (ℚ × ℕ)
  deriving Repr, DecidableEq

def WAcc.push (count : ℕ) (total avg : ℚ) (a : WAcc) : WAcc :=
  ⟨a.count + count, a.total_value + total,
    if 0 < avg then a.avg_prices ++ [(avg, count)] else a.avg_prices⟩

def bumpW (l : List (String × WAcc)) (k : String) (count : ℕ) (total avg : ℚ) :
    List (String × WAcc) :=
  match l with
  | [] => [(k, WAcc.push count total avg ⟨0, 0, []⟩)]
  | (k', a) :: t =>
    if k' = k then (k', WAcc.push count total avg a) :: t
    else (k', a) :: bumpW t k count total avg

/-- The truthy `rv_type` a product key resolves to
(`products_for_inventory.get(pkey, {}).get("rv_type")`, then `if rv_type:`). -/
def rvOf (products : List (ℕ × ProductDim)) (k : ℕ) : Option String :=
  match (products.lookup k).bind ProductDim.rv_type with
  | some v => if v = "" then none else some v
  | none => none

/-- The `by_rv_type` accumulation loop of `build_aggregations_cache`. -/
def precomputeRvGroups (items : List RawItem) (products : List (ℕ × ProductDim)) :
    List (String × WAcc) :=
  (skeysOf items).foldl (fun l k =>
    let g := skeyGroup items k
    match rvOf products k with
    | some v => bumpW l v (gqlCount g) (gqlSum g) (gqlAvg g)
    | none => l) []

/-- `combine_weighted`, the per-batch average recombination of
`build_aggregations_cache.format_agg` (identical in
`_build_aggregations_for_product_skeys.format_agg`):
`Σ(avg·count) / Σ(count)`, 0 when no batch carried a positive average. -/
def weightedAvg (pairs : List (ℚ × ℕ)) : ℚ :=
  let tw : ℚ := (pairs.map (fun pc => pc.1 * (pc.2 : ℚ))).sum
  let tc : ℕ := (pairs.map (fun pc => pc.2)).sum
  if 0 < tc then tw / (tc : ℚ) else 0

/-- An output bucket of `build_aggregations_cache.format_agg`: note the
hardcoded `"min_price": 0, "max_price": 0`. -/
def cacheBucket (k : String) (a : WAcc) : Bucket :=
  ⟨k, a.count, a.total_value, weightedAvg a.avg_prices, 0, 0, none⟩

/-- `build_aggregations_cache.format_agg` (`result[:limit] if limit else
result`). -/
def cacheFormatAgg (l : List (String × WAcc)) (limit : Option ℕ) : List Bucket :=
  let res := (stableSortDesc (fun x => x.2.count) l).map (fun x => cacheBucket x.1 x.2)
  match limit with
  | none => res
  | some n => if n = 0 then res else res.take n

/-- The precomputed `by_rv_type` list of the startup snapshot. -/
def buildAggCacheByRvType (items : List RawItem) (products : List (ℕ × ProductDim)) :
    List Bucket :=
  cacheFormatAgg (precomputeRvGroups items products) (some 10)

/-! ## Lake client: `get_cached_inventory`

Categorical filters go through `_apply_filter` (column-presence guarded);
the price bounds index `df['price']` unguarded.  The trailing per-row
response reshaping is dropped; the function returns the selected rows. -/

def lakeGetCachedInventory (f : Frame)
    (dealer dealer_group rv_type manufacturer condition state model floorplan : Option String)
    (min_price max_price : Option ℚ) (limit : ℕ) : Except String (List Row) := do
  let df := applyFilter (applyFilter (applyFilter (applyFilter (applyFilter (applyFilter
    (applyFilter (applyFilter f "dealership" dealer) "dealer_group" dealer_group)
    "rv_type" rv_type) "manufacturer" manufacturer) "condition" condition) "state" state)
    "model" model) "floorplan" floorplan
  let r1 ← maskPriceMin df df.rows min_price
  let r2 ← maskPriceMax df r1 max_price
  .ok (r2.take limit)

/-! ## Concrete fixtures

The 4-record scenario of the spec's §8:
`[{state:CA, price:100, condition:NEW}, {state:CA, price:300, condition:USED},
{state:TX, price:200, condition:NEW}, {state:TX, price:null, condition:NEW}]`,
realised on both backends. -/

def stdCols : List String :=
  ["stock_number", "price", "days_on_lot", "condition", "rv_type", "manufacturer",
   "model", "floorplan", "dealer_group", "state", "region", "city", "county", "dealership"]

def demoRowCA1 : Row :=
  { Row.base with
    stock_number := some "S1"
    price := some 100
    condition := some "NEW"
    state := some "CA" }

def demoRowCA2 : Row :=
  { Row.base with
    stock_number := some "S2"
    price := some 300
    condition := some "USED"
    state := some "CA" }

def demoRowTX1 : Row :=
  { Row.base with
    stock_number := some "S3"
    price := some 200
    condition := some "NEW"
    state := some "TX" }

def demoRowTX2 : Row :=
  { Row.base with
    stock_number := some "S4"
    price := none
    condition := some "NEW"
    state := some "TX" }

def demoFrame : Frame :=
  ⟨stdCols, [demoRowCA1, demoRowCA2, demoRowTX1, demoRowTX2]⟩

/-- The all-null joined record, base for Graph-side fixtures. -/
def CRec.base : CRec :=
  ⟨none, 0, none, 0, none, none, none, none, none, none, none, none, none, none, none, ""⟩

def demoCRecCA1 : CRec :=
  { CRec.base with
    stock_number := some "S1"
    price := 100
    condition := some "NEW"
    state := some "CA" }

def demoCRecCA2 : CRec :=
  { CRec.base with
    stock_number := some "S2"
    price := 300
    condition := some "USED"
    state := some "CA" }

def demoCRecTX1 : CRec :=
  { CRec.base with
    stock_number := some "S3"
    price := 200
    condition := some "NEW"
    state := some "TX" }

/-- The null-priced TX record: the Graph cache stores its price as 0. -/
def demoCRecTX2 : CRec :=
  { CRec.base with
    stock_number := some "S4"
    price := 0
    condition := some "NEW"
    state := some "TX" }

def demoGCache : List CRec :=
  [demoCRecCA1, demoCRecCA2, demoCRecTX1, demoCRecTX2]

/-- One-record input for the precompute-vs-on-demand comparison: a single
unit with product key 1, price 100, whose product dimension resolves to
rv_type "A". -/
def demoItemA : RawItem :=
  ⟨some "S1", some 100, some "NEW", some 5, some 1, some 1, some 1⟩

def demoProducts : List (ℕ × ProductDim) :=
  [(1, ⟨some "A", some "M", none, none⟩)]

def demoFloorplans : List (ℕ × FloorDim) := [(1, ⟨none⟩)]

def demoDealers : List (ℕ × DealerDim) :=
  [(1, ⟨some "G", some "CA", none, none, none, some "D"⟩)]

/-- A row with a price but no state, for the null-group-key analysis. -/
def demoRowNoState : Row :=
  { Row.base with
    stock_number := some "S9"
    price := some 50 }

/-- Frame with one CA row and one null-state row. -/
def demoFrameNullState : Frame := ⟨stdCols, [demoRowCA1, demoRowNoState]⟩

/-- Joined record with a price but no state (Graph side). -/
def demoCRecNoState : CRec :=
  { CRec.base with
    stock_number := some "S9"
    price := 50 }

/-- Two records with distinct states and equal group sizes, TX first:
input order for the tie-break analysis. -/
def demoTieCache : List CRec := [demoCRecTX1, demoCRecCA1]

/-- A frame whose shape lacks the `rv_type` column (and every other
categorical column except `state`). -/
def framePriceState : Frame := ⟨["stock_number", "price", "state"], [demoRowCA1]⟩

/-- The unguarded mask columns of `_build_aggregation_response` (accessed
without an `in df.columns` check) together with `price`. -/
def unguardedCols : List String :=
  ["rv_type", "dealer_group", "manufacturer", "condition", "state", "price"]

/-- A frame carries the standard unguarded columns. -/
def HasStdCols (f : Frame) : Prop :=
  ∀ c ∈ unguardedCols, f.cols.contains c = true

/-- A priceless row with a state, exercising the unpriced-bucket branch. -/
def demoRowNoPrice : Row :=
  { Row.base with
    stock_number := some "S8"
    state := some "CA" }

def demoFrameNoPrices : Frame := ⟨stdCols, [demoRowNoPrice]⟩

/-- A filter matching no record of the scenario frame. -/
def demoNoMatchParams : AggParams :=
  { AggParams.noFilter with state := some "ZZ" }

/-- A truthy parameter whose comma-split yields no values (`rv_type=","`). -/
def demoMalformedParams : AggParams :=
  { AggParams.noFilter with rv_type := some "," }

/-- Null-priced raw item, for the coercion analysis. -/
def demoItemNull : RawItem := ⟨some "S0", none, none, none, none, none, none⟩

/-- The `condition=NEW` parameter set of the 4-record scenario. -/
def demoNewParams : AggParams :=
  { AggParams.noFilter with condition := some "NEW" }

/-- Total `count` of the entries of a precompute accumulator carrying a
given bucket name. -/
def wcountOf (l : List (String × WAcc)) (name : String) : ℕ :=
  ((l.filter (fun x => x.1 = name)).map (fun x => x.2.count)).sum

def wtotalOf (l : List (String × WAcc)) (name : String) : ℚ :=
  ((l.filter (fun x => x.1 = name)).map (fun x => x.2.total_value)).sum

/-- Total `count` of the entries of an on-demand accumulator carrying a
given bucket name. -/
def acountOf (l : List (String × Acc)) (name : String) : ℕ :=
  ((l.filter (fun x => x.1 = name)).map (fun x => x.2.count)).sum

def atotalOf (l : List (String × Acc)) (name : String) : ℚ :=
  ((l.filter (fun x => x.1 = name)).map (fun x => x.2.total_value)).sum

/-! # Theorems -/

/-! ## Sort lemmas -/

theorem mem_insDesc [LinearOrder β] (key : α → β) (x a : α) (l : List α) :
    a ∈ insDesc key x l ↔ a = x ∨ a ∈ l := by
  induction l with
  | nil => simp [insDesc]
  | cons y ys ih =>
    by_cases h : key y ≤ key x
    · simp [insDesc, h]
    · simp [insDesc, h, ih]
      tauto

theorem perm_insDesc [LinearOrder β] (key : α → β) (x : α) (l : List α) :
    List.Perm (insDesc key x l) (x :: l) := by
  induction l with
  | nil => simp [insDesc]
  | cons y ys ih =>
    by_cases h : key y ≤ key x
    · simp [insDesc, h]
    · simp only [insDesc, if_neg h]
      exact (ih.cons y).trans (List.Perm.swap x y ys)

theorem perm_stableSortDesc [LinearOrder β] (key : α → β) (l : List α) :
    List.Perm (stableSortDesc key l) l := by
  induction l with
  | nil => rfl
  | cons x t ih => exact (perm_insDesc key x (stableSortDesc key t)).trans (ih.cons x)

theorem mem_stableSortDesc [LinearOrder β] (key : α → β) (a : α) (l : List α) :
    a ∈ stableSortDesc key l ↔ a ∈ l :=
  (perm_stableSortDesc key l).mem_iff

/-- Inserting into a descending-with-secondary-tiebreak sorted list keeps it
sorted, provided the inserted element precedes every list element in the
secondary order (which holds during the fold because the list then contains
only elements that originally came later). -/
theorem insDesc_pairwise [LinearOrder β] [LinearOrder γ] (key : α → β) (sec : α → γ)
    (x : α) (m : List α)
    (hm : m.Pairwise (fun a b => key b < key a ∨ (key a = key b ∧ sec a < sec b)))
    (hx : ∀ y ∈ m, sec x < sec y) :
    (insDesc key x m).Pairwise
      (fun a b => key b < key a ∨ (key a = key b ∧ sec a < sec b)) := by
  induction m with
  | nil => simp [insDesc]
  | cons y ys ih =>
    rcases List.pairwise_cons.mp hm with ⟨hy, hys⟩
    by_cases h : key y ≤ key x
    · rw [insDesc, if_pos h]
      refine List.pairwise_cons.mpr ⟨?_, hm⟩
      intro z hz
      rcases List.mem_cons.mp hz with hz | hz
      · subst hz
        rcases lt_or_eq_of_le h with h' | h'
        · exact Or.inl h'
        · exact Or.inr ⟨h'.symm, hx _ (List.mem_cons_self _ ys)⟩
      · rcases hy z hz with hzy | ⟨hzy, _⟩
        · exact Or.inl (lt_of_lt_of_le hzy h)
        · rcases lt_or_eq_of_le h with h' | h'
          · exact Or.inl (hzy ▸ h')
          · exact Or.inr ⟨h'.symm.trans hzy, hx z (List.mem_cons_of_mem y hz)⟩
    · rw [insDesc, if_neg h]
      refine List.pairwise_cons.mpr ⟨?_, ih hys (fun z hz => hx z (List.mem_cons_of_mem y hz))⟩
      intro w hw
      rcases (mem_insDesc key x w ys).mp hw with hw | hw
      · subst hw
        exact Or.inl (lt_of_not_le h)
      · exact hy w hw

/-- If the input is strictly sorted by the secondary key, the stable
descending sort is sorted by key descending with ties in ascending
secondary order. -/
theorem pairwise_stableSortDesc [LinearOrder β] [LinearOrder γ] (key : α → β) (sec : α → γ)
    (l : List α) (h : l.Pairwise (fun a b => sec a < sec b)) :
    (stableSortDesc key l).Pairwise
      (fun a b => key b < key a ∨ (key a = key b ∧ sec a < sec b)) := by
  induction l with
  | nil => simp [stableSortDesc]
  | cons x t ih =>
    rcases List.pairwise_cons.mp h with ⟨hx, ht⟩
    exact insDesc_pairwise key sec x (stableSortDesc key t) (ih ht)
      (fun y hy => hx y ((mem_stableSortDesc key y t).mp hy))

theorem insDesc_pairwise_ge [LinearOrder β] (key : α → β) (x : α) (m : List α)
    (hm : m.Pairwise (fun a b => key b ≤ key a)) :
    (insDesc key x m).Pairwise (fun a b => key b ≤ key a) := by
  induction m with
  | nil => simp [insDesc]
  | cons y ys ih =>
    rcases List.pairwise_cons.mp hm with ⟨hy, hys⟩
    by_cases h : key y ≤ key x
    · rw [insDesc, if_pos h]
      refine List.pairwise_cons.mpr ⟨?_, hm⟩
      intro z hz
      rcases List.mem_cons.mp hz with hz | hz
      · subst hz; exact h
      · exact (hy z hz).trans h
    · rw [insDesc, if_neg h]
      refine List.pairwise_cons.mpr ⟨?_, ih hys⟩
      intro w hw
      rcases (mem_insDesc key x w ys).mp hw with hw | hw
      · subst hw; exact le_of_lt (lt_of_not_le h)
      · exact hy w hw

/-- The sort is descending in the key. -/
theorem pairwise_ge_stableSortDesc [LinearOrder β] (key : α → β) (l : List α) :
    (stableSortDesc key l).Pairwise (fun a b => key b ≤ key a) := by
  induction l with
  | nil => simp [stableSortDesc]
  | cons x t ih => exact insDesc_pairwise_ge key x (stableSortDesc key t) ih

/-- Stability: elements with any fixed key value appear in the sorted list
exactly in their original order. -/
theorem filter_insDesc [LinearOrder β] (key : α → β) (c : β) (x : α) (l : List α) :
    (insDesc key x l).filter (fun a => key a = c) =
      if key x = c then x :: l.filter (fun a => key a = c)
      else l.filter (fun a => key a = c) := by
  induction l with
  | nil => by_cases h : key x = c <;> simp [insDesc, h]
  | cons y ys ih =>
    by_cases h : key y ≤ key x
    · rw [insDesc, if_pos h]
      by_cases hx : key x = c
      · rw [if_pos hx]
        simp [List.filter_cons, hx]
      · rw [if_neg hx]
        simp [List.filter_cons, hx]
    · have hylt : key x < key y := lt_of_not_le h
      rw [insDesc, if_neg h]
      by_cases hx : key x = c
      · have hyc : ¬ key y = c := by
          intro hyc
          exact absurd (hx.trans hyc.symm) (ne_of_lt hylt)
        rw [if_pos hx]
        simp [List.filter_cons, hyc, ih, hx]
      · rw [if_neg hx]
        by_cases hyc : key y = c <;> simp [List.filter_cons, hyc, ih, hx]

theorem filter_stableSortDesc [LinearOrder β] (key : α → β) (c : β) (l : List α) :
    (stableSortDesc key l).filter (fun a => key a = c) =
      l.filter (fun a => key a = c) := by
  induction l with
  | nil => rfl
  | cons x t ih =>
    rw [stableSortDesc, filter_insDesc]
    by_cases h : key x = c <;> simp [h, ih]

/-! ## Generic sum and partition lemmas -/

theorem sum_map_add {κ : Type} {M : Type} [AddCommMonoid M] (K : List κ) (g h : κ → M) :
    (K.map (fun k => g k + h k)).sum = (K.map g).sum + (K.map h).sum := by
  induction K with
  | nil => simp
  | cons k t ih => simp [ih, add_assoc, add_left_comm]

theorem sum_map_one {α : Type} (l : List α) : (l.map (fun _ => (1 : ℕ))).sum = l.length := by
  induction l with
  | nil => rfl
  | cons a t ih => simp [ih, Nat.add_comm]

/-- Summing an indicator over a duplicate-free list picks out the single
matching entry. -/
theorem sum_ite_eq_mem {κ : Type} {M : Type} [DecidableEq κ] [AddCommMonoid M]
    (K : List κ) (hN : K.Nodup) (k0 : κ) (g : κ → M) :
    (K.map (fun k => if k0 = k then g k else 0)).sum = if k0 ∈ K then g k0 else 0 := by
  induction K with
  | nil => simp
  | cons k K' ih =>
    rcases List.nodup_cons.mp hN with ⟨hk, hN'⟩
    by_cases h : k0 = k
    · subst h
      have hz : (K'.map (fun k => if k0 = k then g k else 0)).sum = 0 := by
        apply List.sum_eq_zero
        intro x hx
        rcases List.mem_map.mp hx with ⟨k', hk', rfl⟩
        have : ¬ k0 = k' := fun he => hk (he ▸ hk')
        simp [this]
      simp [hz]
    · simp [h, ih hN', List.mem_cons]

/-- Partitioning a weighted sum over a duplicate-free key list: summing the
per-key totals equals a single pass over the collection, where an element
contributes when its key is in the list. -/
theorem sum_sum_keys {α κ M : Type} [DecidableEq κ] [AddCommMonoid M]
    (K : List κ) (hN : K.Nodup) (l : List α) (f : α → Option κ) (g : κ → α → M) :
    (K.map (fun k => ((l.filter (fun a => f a = some k)).map (g k)).sum)).sum
      = (l.map (fun a =>
          match f a with
          | some k => if k ∈ K then g k a else 0
          | none => 0)).sum := by
  induction l with
  | nil => simp
  | cons a t ih =>
    have hsplit : ∀ k : κ,
        ((List.filter (fun x => f x = some k) (a :: t)).map (g k)).sum
          = (if f a = some k then g k a else 0)
            + ((t.filter (fun x => f x = some k)).map (g k)).sum := by
      intro k
      by_cases h : f a = some k <;> simp [List.filter_cons, h]
    calc (K.map (fun k => ((List.filter (fun x => f x = some k) (a :: t)).map (g k)).sum)).sum
        = (K.map (fun k => (if f a = some k then g k a else 0)
            + ((t.filter (fun x => f x = some k)).map (g k)).sum)).sum := by
          congr 1
          exact List.map_congr_left (fun k _ => hsplit k)
      _ = (K.map (fun k => if f a = some k then g k a else 0)).sum
            + (K.map (fun k => ((t.filter (fun x => f x = some k)).map (g k)).sum)).sum :=
          sum_map_add K _ _
      _ = (match f a with
            | some k => if k ∈ K then g k a else 0
            | none => 0)
            + (t.map (fun x =>
                match f x with
                | some k => if k ∈ K then g k x else 0
                | none => 0)).sum := by
          rw [ih]
          congr 1
          cases hfa : f a with
          | none => simp
          | some k0 =>
            simp only [Option.some.injEq]
            exact sum_ite_eq_mem K hN k0 (fun k => g k a)
      _ = ((a :: t).map (fun x =>
            match f x with
            | some k => if k ∈ K then g k x else 0
            | none => 0)).sum := by simp

/-- Turning an `if`-weighted sum into a sum over the filtered key list. -/
theorem sum_map_filter {κ M : Type} [AddCommMonoid M] (K : List κ) (P : κ → Prop)
    [DecidablePred P] (g : κ → M) :
    ((K.filter (fun k => P k)).map g).sum = (K.map (fun k => if P k then g k else 0)).sum := by
  induction K with
  | nil => rfl
  | cons k t ih =>
    by_cases h : P k <;> simp [List.filter_cons, h, ih]

theorem sum_map_filterB {κ M : Type} [AddCommMonoid M] (K : List κ) (q : κ → Bool)
    (g : κ → M) :
    ((K.filter q).map g).sum = (K.map (fun k => if q k then g k else 0)).sum := by
  induction K with
  | nil => rfl
  | cons k t ih =>
    by_cases h : q k <;> simp [List.filter_cons, h, ih]

/-! ## Closed counterexamples and the simple claims -/

set_option maxRecDepth 10000 in
/-- C1 (counterexample): on a one-record collection (product key 1,
price 100, rv_type "A") the startup snapshot's `by_rv_type` bucket carries
the hardcoded `min_price = max_price = 0`, while the on-demand aggregation
over the same joined collection with an empty filter set reports 100 for
both — the precomputed and on-demand paths do not agree bucket-for-bucket. -/
theorem c1_min_price_counterexample :
    buildAggCacheByRvType [demoItemA] demoProducts = [⟨"A", 1, 100, 100, 0, 0, none⟩]
    ∧ (mainGetFilteredAggregations
        (loadInventoryCache [demoItemA] demoProducts demoFloorplans demoDealers)
        none none none none none none none).by_rv_type = [⟨"A", 1, 100, 100, 100, 100, none⟩]
    ∧ buildAggCacheByRvType [demoItemA] demoProducts ≠
      (mainGetFilteredAggregations
        (loadInventoryCache [demoItemA] demoProducts demoFloorplans demoDealers)
        none none none none none none none).by_rv_type := by
  refine ⟨?_, ?_, ?_⟩ <;>
  norm_num [buildAggCacheByRvType, cacheFormatAgg, precomputeRvGroups, skeysOf, skeyGroup,
    gqlCount, gqlSum, gqlAvg, gqlPrices, rvOf, bumpW, WAcc.push, weightedAvg, cacheBucket,
    meanQ, loadInventoryCache, joinItem, List.lookup, demoItemA, demoProducts, demoFloorplans,
    demoDealers, mainGetFilteredAggregations, mainFilterRecs, stepEq, stepMin, stepMax,
    groupsBy, bump, Acc.push, mainFormatAgg, mainBucket, mainAllPrices, mainTotalValue,
    stableSortDesc, insDesc, List.filterMap_cons, List.filterMap_nil]

set_option maxRecDepth 10000 in
/-- C2 (counterexample): on the 4-record scenario, the Graph client's
on-demand path filtered to `condition=NEW` and aggregated `by_state` gives
the TX bucket `avg_price = 100` (its `total_value / count`, 200 / 2,
because the by_state accumulator collects no per-record prices), not the
claimed 200 = total over priced records only. -/
theorem c2_graph_by_state_avg_counterexample :
    (mainGetFilteredAggregations demoGCache none none none (some "NEW") none none none).by_state
      = [⟨"TX", 2, 200, 100, 0, 0, none⟩, ⟨"CA", 1, 100, 100, 0, 0, none⟩]
    ∧ ((mainGetFilteredAggregations demoGCache none none none (some "NEW") none none
        none).by_state.filter (fun b => b.name = "TX")).map Bucket.avg_price = [100]
    ∧ (100 : ℚ) ≠ 200 := by
  refine ⟨?_, ?_, by norm_num⟩ <;>
  norm_num [mainGetFilteredAggregations, mainFilterRecs, stepEq, stepMin, stepMax,
    groupsBy, bump, Acc.push, mainFormatAgg, mainBucket, mainAllPrices, mainTotalValue,
    stableSortDesc, insDesc, demoGCache, demoCRecCA1, demoCRecCA2, demoCRecTX1, demoCRecTX2,
    CRec.base, optTrue] <;> decide

set_option maxRecDepth 10000 in
/-- C4 (counterexample): two groups with equal counts, first occurring in
the order TX then CA, are emitted in that insertion order by the Graph
client's `format_agg` — "TX" before "CA" is not ascending name order. -/
theorem c4_tie_order_counterexample :
    ((mainGetFilteredAggregations demoTieCache none none none none none none none).by_state.map
      Bucket.name) = ["TX", "CA"]
    ∧ ((mainGetFilteredAggregations demoTieCache none none none none none none none).by_state.map
      Bucket.count) = [1, 1]
    ∧ ¬ strAsc "TX" "CA" := by
  refine ⟨?_, ?_, by decide⟩ <;>
  norm_num [mainGetFilteredAggregations, mainFilterRecs, stepEq, stepMin, stepMax,
    groupsBy, bump, Acc.push, mainFormatAgg, mainBucket, mainAllPrices, mainTotalValue,
    stableSortDesc, insDesc, demoTieCache, demoCRecCA1, demoCRecTX1, CRec.base, optTrue]

set_option maxRecDepth 10000 in
/-- C5 (counterexample): the Graph client's cached-inventory filter does
not split comma-separated values — `state=CA,TX` is compared literally and
matches none of the 4 scenario records instead of all 4. -/
theorem c5_graph_multivalue_counterexample :
    (mainGetCachedInventory demoGCache none none none none none (some "CA,TX")
      none none 100).1 = []
    ∧ demoGCache.length = 4 := by
  refine ⟨?_, by decide⟩
  norm_num [mainGetCachedInventory, stepEq, stepMin, stepMax, stableSortDesc, insDesc,
    demoGCache, demoCRecCA1, demoCRecCA2, demoCRecTX1, demoCRecTX2, CRec.base, optTrue]

set_option maxRecDepth 10000 in
/-- C6 (code bug): `get_cached_inventory` with no filter parameters sorts
the cached list *in place* (`filtered` still aliases the cache when no
filter comprehension replaced it), so the cache's record order changes:
from [price 100, price 300] to [price 300, price 100].  A filtered call
leaves the cache untouched.  This contradicts the documented read-only
cache ("never mutated afterward"). -/
theorem c6_unfiltered_listing_mutates_cache :
    (mainGetCachedInventory [demoCRecCA1, demoCRecCA2] none none none none none none
      none none 100).2 = [demoCRecCA2, demoCRecCA1]
    ∧ (mainGetCachedInventory [demoCRecCA1, demoCRecCA2] none none none none none none
      none none 100).2 ≠ [demoCRecCA1, demoCRecCA2]
    ∧ (mainGetCachedInventory [demoCRecCA1, demoCRecCA2] none none none none
      (some "NEW") none none none 100).2 = [demoCRecCA1, demoCRecCA2] := by
  refine ⟨?_, ?_, ?_⟩ <;>
  norm_num [mainGetCachedInventory, stepEq, stepMin, stepMax, stableSortDesc, insDesc,
    demoCRecCA1, demoCRecCA2, CRec.base, optTrue] <;> decide

/-- C7 (counterexample): the empty sales-velocity response carries
`None` — not 0 — in its six numeric statistics fields
(`avg/median/min/max days to sell`, `avg_sale_price`, `total_sales_value`). -/
theorem c7_sales_velocity_nulls_counterexample :
    emptySalesVelocityResponse.avg_days_to_sell = none
    ∧ emptySalesVelocityResponse.median_days_to_sell = none
    ∧ emptySalesVelocityResponse.min_days_to_sell = none
    ∧ emptySalesVelocityResponse.max_days_to_sell = none
    ∧ emptySalesVelocityResponse.avg_sale_price = none
    ∧ emptySalesVelocityResponse.total_sales_value = none := by
  decide

set_option maxRecDepth 10000 in
/-- C8 (counterexample): a null-state row is dropped from the `by_state`
breakdown entirely (pandas `groupby` drops NaN keys before the
`fillna('Unknown')` relabelling can see them): of 2 rows only 1 is counted
across all buckets, and no "Unknown" bucket appears.  The Graph client's
on-demand path skips null group values the same way. -/
theorem c8_null_group_dropped_counterexample :
    aggregateByFast demoFrameNullState "state" none = [⟨"CA", 1, 100, 100, 100, 100, none⟩]
    ∧ ((aggregateByFast demoFrameNullState "state" none).map Bucket.count).sum = 1
    ∧ demoFrameNullState.rows.length = 2
    ∧ ¬ "Unknown" ∈ (aggregateByFast demoFrameNullState "state" none).map Bucket.name
    ∧ ((mainGetFilteredAggregations [demoCRecCA1, demoCRecNoState] none none none none
        none none none).by_state.map Bucket.name) = ["CA"] := by
  refine ⟨?_, ?_, by decide, ?_, ?_⟩ <;>
  norm_num +decide [aggregateByFast, takeIfLimit, aggregateByFastPre, keysAsc, statsFor,
    groupOf, pricedOf, meanQ, stableSortDesc, insDesc, strAsc, Row.getStr, demoFrameNullState,
    demoRowCA1, demoRowNoState, Row.base, stdCols, List.insertionSort, List.orderedInsert,
    List.filterMap_cons, List.filterMap_nil, List.min?, List.max?,
    List.filter_cons, List.filter_nil,
    mainGetFilteredAggregations, mainFilterRecs, stepEq, stepMin, stepMax,
    groupsBy, bump, Acc.push, mainFormatAgg, mainBucket, mainAllPrices, mainTotalValue,
    demoCRecCA1, demoCRecNoState, CRec.base, optTrue]

set_option maxRecDepth 10000 in
/-- C9 (counterexample): on the aggregation path, an `rv_type` filter
against a frame whose shape lacks the `rv_type` column raises
`KeyError` (the mask indexes `inventory['rv_type']` unguarded), while the
listing path's `_apply_filter` on the same frame is a no-op. -/
theorem c9_agg_path_missing_column_counterexample :
    buildAggregationResponse framePriceState
      { AggParams.noFilter with rv_type := some "X" } = .error "rv_type"
    ∧ applyFilter framePriceState "rv_type" (some "X") = framePriceState := by
  refine ⟨?_, by decide⟩
  norm_num +decide [buildAggregationResponse, maskFilteredRows, maskCat, maskPriceMin,
    maskPriceMax, AggParams.noFilter, framePriceState, Except.bind, Bind.bind]

/-- C3: recombining per-batch partial aggregates `(avg_i, count_i)` uses
count-weighted averaging `Σ(avg_i·count_i) / Σ(count_i)`; in particular
batches (avg 100, count 3) and (avg 200, count 1) combine to 125, not the
unweighted mean 150. -/
theorem c3_weighted_recombination :
    (∀ pairs : List (ℚ × ℕ), 0 < (pairs.map (fun pc => pc.2)).sum →
      weightedAvg pairs =
        (pairs.map (fun pc => pc.1 * (pc.2 : ℚ))).sum /
          (((pairs.map (fun pc => pc.2)).sum : ℕ) : ℚ))
    ∧ weightedAvg [(100, 3), (200, 1)] = 125
    ∧ weightedAvg [(100, 3), (200, 1)] ≠ (100 + 200) / 2 := by
  refine ⟨fun pairs h => ?_, by norm_num [weightedAvg], by norm_num [weightedAvg]⟩
  simp only [weightedAvg, if_pos h]

/-- Witness for C3 at the two concrete batches. -/
theorem c3_weighted_recombination_witness :
    0 < ([((100 : ℚ), (3 : ℕ)), (200, 1)].map (fun pc => pc.2)).sum ∧
      weightedAvg [(100, 3), (200, 1)] =
        ([((100 : ℚ), (3 : ℕ)), (200, 1)].map (fun pc => pc.1 * (pc.2 : ℚ))).sum /
          ((([((100 : ℚ), (3 : ℕ)), (200, 1)].map (fun pc => pc.2)).sum : ℕ) : ℚ) :=
  ⟨by decide, c3_weighted_recombination.1 [(100, 3), (200, 1)] (by decide)⟩

/-! ## Accumulator lemmas (Graph client grouping) -/

theorem acountOf_cons (k' : String) (a : Acc) (t : List (String × Acc)) (name : String) :
    acountOf ((k', a) :: t) name = (if k' = name then a.count else 0) + acountOf t name := by
  by_cases h : k' = name <;> simp [acountOf, List.filter_cons, h, Nat.add_comm]

theorem acountOf_bump (l : List (String × Acc)) (k : String) (p : ℚ) (c : Bool)
    (name : String) :
    acountOf (bump l k p c) name = acountOf l name + (if k = name then 1 else 0) := by
  induction l with
  | nil =>
    by_cases h : k = name <;> simp [bump, acountOf, List.filter_cons, h, Acc.push]
  | cons x t ih =>
    obtain ⟨k', a⟩ := x
    by_cases hk : k' = k
    · subst hk
      rw [bump, if_pos rfl, acountOf_cons, acountOf_cons]
      by_cases h : k' = name <;> simp [h, Acc.push] <;> omega
    · rw [bump, if_neg hk, acountOf_cons, acountOf_cons, ih, Nat.add_assoc]

theorem atotalOf_cons (k' : String) (a : Acc) (t : List (String × Acc)) (name : String) :
    atotalOf ((k', a) :: t) name = (if k' = name then a.total_value else 0) + atotalOf t name := by
  by_cases h : k' = name <;> simp [atotalOf, List.filter_cons, h, add_comm]

theorem atotalOf_bump (l : List (String × Acc)) (k : String) (p : ℚ) (c : Bool)
    (name : String) :
    atotalOf (bump l k p c) name = atotalOf l name + (if k = name then p else 0) := by
  induction l with
  | nil =>
    by_cases h : k = name <;> simp [bump, atotalOf, List.filter_cons, h, Acc.push]
  | cons x t ih =>
    obtain ⟨k', a⟩ := x
    by_cases hk : k' = k
    · subst hk
      rw [bump, if_pos rfl, atotalOf_cons, atotalOf_cons]
      by_cases h : k' = name <;> simp [h, Acc.push] <;> ring
    · rw [bump, if_neg hk, atotalOf_cons, atotalOf_cons, ih, add_assoc]

/-- The grouping fold counts, per name, exactly the records whose (truthy)
field value is that name. -/
theorem acountOf_groupsBy (field : CRec → Option String) (collect : Bool)
    (recs : List CRec) (name : String) (hname : name ≠ "") :
    acountOf (groupsBy field collect recs) name
      = recs.countP (fun r => field r = some name) := by
  suffices h : ∀ l0 : List (String × Acc),
      acountOf (recs.foldl (fun l r =>
        match field r with
        | some v => if v = "" then l else bump l v r.price collect
        | none => l) l0) name
        = acountOf l0 name + recs.countP (fun r => field r = some name) by
    simpa [groupsBy, acountOf] using h []
  induction recs with
  | nil => intro l0; simp
  | cons r t ih =>
    intro l0
    rw [List.foldl_cons, List.countP_cons]
    cases hf : field r with
    | none =>
      simp only [hf]
      rw [ih l0]
      simp [hf]
    | some v =>
      by_cases hv : v = ""
      · subst hv
        simp only [hf, reduceIte]
        rw [ih l0]
        have : ¬ (some "" = some name) := fun he => hname (Option.some.inj he).symm
        simp [hf, this]
      · simp only [hf, if_neg hv]
        rw [ih (bump l0 v r.price collect), acountOf_bump]
        by_cases h : v = name
        · subst h
          simp [hf, Nat.add_assoc, Nat.add_comm]
        · have : ¬ (some v = some name) := fun he => h (Option.some.inj he)
          simp [hf, this, h, Nat.add_assoc]

theorem atotalOf_groupsBy (field : CRec → Option String) (collect : Bool)
    (recs : List CRec) (name : String) (hname : name ≠ "") :
    atotalOf (groupsBy field collect recs) name
      = ((recs.filter (fun r => field r = some name)).map CRec.price).sum := by
  suffices h : ∀ l0 : List (String × Acc),
      atotalOf (recs.foldl (fun l r =>
        match field r with
        | some v => if v = "" then l else bump l v r.price collect
        | none => l) l0) name
        = atotalOf l0 name + ((recs.filter (fun r => field r = some name)).map CRec.price).sum by
    simpa [groupsBy, atotalOf] using h []
  induction recs with
  | nil => intro l0; simp
  | cons r t ih =>
    intro l0
    rw [List.foldl_cons, List.filter_cons]
    cases hf : field r with
    | none =>
      simp only [hf]
      rw [ih l0]
      simp [hf]
    | some v =>
      by_cases hv : v = ""
      · subst hv
        simp only [hf, reduceIte]
        rw [ih l0]
        have : ¬ (some "" = some name) := fun he => hname (Option.some.inj he).symm
        simp [hf, this]
      · simp only [hf, if_neg hv]
        rw [ih (bump l0 v r.price collect), atotalOf_bump]
        by_cases h : v = name
        · subst h
          simp only [hf]
          simp
          ring
        · have : ¬ (some v = some name) := fun he => h (Option.some.inj he)
          simp [hf, this, h, add_assoc]

/-! ## Accumulator lemmas (precompute pipeline) -/

theorem wcountOf_cons (k' : String) (a : WAcc) (t : List (String × WAcc)) (name : String) :
    wcountOf ((k', a) :: t) name = (if k' = name then a.count else 0) + wcountOf t name := by
  by_cases h : k' = name <;> simp [wcountOf, List.filter_cons, h, Nat.add_comm]

theorem wcountOf_bumpW (l : List (String × WAcc)) (k : String) (c : ℕ) (tv avg : ℚ)
    (name : String) :
    wcountOf (bumpW l k c tv avg) name = wcountOf l name + (if k = name then c else 0) := by
  induction l with
  | nil =>
    by_cases h : k = name <;> simp [bumpW, wcountOf, List.filter_cons, h, WAcc.push]
  | cons x t ih =>
    obtain ⟨k', a⟩ := x
    by_cases hk : k' = k
    · subst hk
      rw [bumpW, if_pos rfl, wcountOf_cons, wcountOf_cons]
      by_cases h : k' = name <;> simp [h, WAcc.push] <;> omega
    · rw [bumpW, if_neg hk, wcountOf_cons, wcountOf_cons, ih, Nat.add_assoc]

theorem wtotalOf_cons (k' : String) (a : WAcc) (t : List (String × WAcc)) (name : String) :
    wtotalOf ((k', a) :: t) name = (if k' = name then a.total_value else 0) + wtotalOf t name := by
  by_cases h : k' = name <;> simp [wtotalOf, List.filter_cons, h, add_comm]

theorem wtotalOf_bumpW (l : List (String × WAcc)) (k : String) (c : ℕ) (tv avg : ℚ)
    (name : String) :
    wtotalOf (bumpW l k c tv avg) name = wtotalOf l name + (if k = name then tv else 0) := by
  induction l with
  | nil =>
    by_cases h : k = name <;> simp [bumpW, wtotalOf, List.filter_cons, h, WAcc.push]
  | cons x t ih =>
    obtain ⟨k', a⟩ := x
    by_cases hk : k' = k
    · subst hk
      rw [bumpW, if_pos rfl, wtotalOf_cons, wtotalOf_cons]
      by_cases h : k' = name
      · subst h
        simp [WAcc.push]
        ring
      · simp [h, WAcc.push]
    · rw [bumpW, if_neg hk, wtotalOf_cons, wtotalOf_cons, ih, add_assoc]

/-- Per-name count of the precompute accumulation: the sum of the upstream
group counts over the product keys resolving to that name. -/
theorem wcountOf_precompute (items : List RawItem) (products : List (ℕ × ProductDim))
    (name : String) :
    wcountOf (precomputeRvGroups items products) name
      = ((skeysOf items).map (fun k =>
          if rvOf products k = some name then gqlCount (skeyGroup items k) else 0)).sum := by
  suffices h : ∀ (ks : List ℕ) (l0 : List (String × WAcc)),
      wcountOf (ks.foldl (fun l k =>
        let g := skeyGroup items k
        match rvOf products k with
        | some v => bumpW l v (gqlCount g) (gqlSum g) (gqlAvg g)
        | none => l) l0) name
        = wcountOf l0 name + (ks.map (fun k =>
            if rvOf products k = some name then gqlCount (skeyGroup items k) else 0)).sum by
    simpa [precomputeRvGroups, wcountOf] using h (skeysOf items) []
  intro ks
  induction ks with
  | nil => intro l0; simp
  | cons k t ih =>
    intro l0
    rw [List.foldl_cons, List.map_cons, List.sum_cons]
    cases hv : rvOf products k with
    | none =>
      simp only [hv]
      rw [ih l0]
      simp [hv]
    | some v =>
      simp only [hv]
      rw [ih _, wcountOf_bumpW]
      by_cases h : v = name
      · subst h
        simp [hv]
        omega
      · have : ¬ (rvOf products k = some name) := by
          rw [hv]
          exact fun he => h (Option.some.inj he)
        simp [this, Nat.add_assoc, h]

theorem wtotalOf_precompute (items : List RawItem) (products : List (ℕ × ProductDim))
    (name : String) :
    wtotalOf (precomputeRvGroups items products) name
      = ((skeysOf items).map (fun k =>
          if rvOf products k = some name then gqlSum (skeyGroup items k) else 0)).sum := by
  suffices h : ∀ (ks : List ℕ) (l0 : List (String × WAcc)),
      wtotalOf (ks.foldl (fun l k =>
        let g := skeyGroup items k
        match rvOf products k with
        | some v => bumpW l v (gqlCount g) (gqlSum g) (gqlAvg g)
        | none => l) l0) name
        = wtotalOf l0 name + (ks.map (fun k =>
            if rvOf products k = some name then gqlSum (skeyGroup items k) else 0)).sum by
    simpa [precomputeRvGroups, wtotalOf] using h (skeysOf items) []
  intro ks
  induction ks with
  | nil => intro l0; simp
  | cons k t ih =>
    intro l0
    rw [List.foldl_cons, List.map_cons, List.sum_cons]
    cases hv : rvOf products k with
    | none =>
      simp only [hv]
      rw [ih l0]
      simp [hv]
    | some v =>
      simp only [hv]
      rw [ih _, wtotalOf_bumpW]
      by_cases h : v = name
      · subst h
        simp only [hv, if_pos rfl]
        ring
      · have : ¬ (rvOf products k = some name) := by
          rw [hv]
          exact fun he => h (Option.some.inj he)
        simp [this, add_assoc, h]

/-! ## Key-list and membership lemmas -/

theorem mem_keysAsc (rows : List Row) (col k : String) :
    k ∈ keysAsc rows col ↔ ∃ r ∈ rows, r.getStr col = some k := by
  rw [keysAsc, (List.perm_insertionSort strAsc _).mem_iff, List.mem_dedup, List.mem_filterMap]

theorem nodup_keysAsc (rows : List Row) (col : String) :
    (keysAsc rows col).Nodup := by
  rw [keysAsc]
  exact (List.perm_insertionSort strAsc _).symm.nodup (List.nodup_dedup _)

theorem string_data_inj {a b : String} (h : a.data = b.data) : a = b := by
  cases a with
  | mk da =>
    cases b with
    | mk db => exact congrArg String.mk (by simpa using h)

theorem pairwise_lt_keysAsc (rows : List Row) (col : String) :
    (keysAsc rows col).Pairwise (fun a b => a.data < b.data) := by
  have hs : (keysAsc rows col).Pairwise strAsc := List.sorted_insertionSort strAsc _
  have hn : (keysAsc rows col).Pairwise (fun a b => a ≠ b) := nodup_keysAsc rows col
  refine (hs.and hn).imp ?_
  rintro a b ⟨hle, hne⟩
  exact lt_of_le_of_ne hle (fun hd => hne (string_data_inj hd))

theorem mem_takeIfLimit (limit : Option ℕ) (l : List Bucket) (b : Bucket)
    (h : b ∈ takeIfLimit limit l) : b ∈ l := by
  cases limit with
  | none => exact h
  | some n =>
    by_cases hn : n = 0
    · simpa [takeIfLimit, hn] using h
    · exact List.mem_of_mem_take (by simpa [takeIfLimit, hn] using h)

theorem statsFor_name (rows : List Row) (col k : String) :
    (statsFor rows col k).name = k := rfl

/-- Every bucket of `_aggregate_by_fast` is the statistics row of its own
group. -/
theorem mem_aggregateByFast (f : Frame) (col : String) (limit : Option ℕ) (b : Bucket)
    (h : b ∈ aggregateByFast f col limit) : b = statsFor f.rows col b.name := by
  rw [aggregateByFast] at h
  by_cases hc : f.cols.contains col
  · rw [if_neg (by simpa using hc)] at h
    have h1 : b ∈ aggregateByFastPre f.rows col := mem_takeIfLimit limit _ b h
    rw [aggregateByFastPre, mem_stableSortDesc] at h1
    rcases List.mem_map.mp h1 with ⟨k, _, rfl⟩
    rw [statsFor_name]
  · rw [if_pos (by simpa using hc)] at h
    exact absurd h (List.not_mem_nil b)

theorem mem_skeysOf (items : List RawItem) (k : ℕ) :
    k ∈ skeysOf items ↔ k ≠ 0 ∧ ∃ it ∈ items, it.product_model_skey = some k := by
  rw [skeysOf, List.mem_dedup, List.mem_filter, List.mem_filterMap]
  constructor
  · rintro ⟨⟨it, hit, hk⟩, hne⟩
    exact ⟨by simpa using hne, it, hit, hk⟩
  · rintro ⟨hne, it, hit, hk⟩
    exact ⟨⟨it, hit, hk⟩, by simpa using hne⟩

theorem nodup_skeysOf (items : List RawItem) : (skeysOf items).Nodup :=
  List.nodup_dedup _

/-! ## filterMap and min/max helpers -/

theorem length_filterMap_price (g : List RawItem) (h : ∀ it ∈ g, it.price.isSome = true) :
    (g.filterMap RawItem.price).length = g.length := by
  induction g with
  | nil => rfl
  | cons a t ih =>
    have ha := h a (List.mem_cons_self a t)
    rcases Option.isSome_iff_exists.mp ha with ⟨p, hp⟩
    rw [List.filterMap_cons, hp]
    simp [ih (fun it hit => h it (List.mem_cons_of_mem a hit))]

theorem sum_filterMap_price (g : List RawItem) :
    (g.filterMap RawItem.price).sum = (g.map (fun it => it.price.getD 0)).sum := by
  induction g with
  | nil => rfl
  | cons a t ih =>
    rw [List.filterMap_cons]
    cases hp : a.price with
    | none => simp [hp, ih]
    | some p => simp [hp, ih]

theorem qmin_spec (l : List ℚ) (a : ℚ) :
    l.min? = some a ↔ a ∈ l ∧ ∀ b ∈ l, a ≤ b := by
  haveI : Std.Antisymm (fun a b : ℚ => a ≤ b) := ⟨fun h h' => le_antisymm h h'⟩
  exact List.min?_eq_some_iff (fun a => le_refl a) (fun a b => min_choice a b)
    (fun a b c => le_min_iff)

theorem qmax_spec (l : List ℚ) (a : ℚ) :
    l.max? = some a ↔ a ∈ l ∧ ∀ b ∈ l, b ≤ a := by
  haveI : Std.Antisymm (fun a b : ℚ => a ≤ b) := ⟨fun h h' => le_antisymm h h'⟩
  exact List.max?_eq_some_iff (fun a => le_refl a) (fun a b => max_choice a b)
    (fun a b c => max_le_iff)

/-! ## Amended claim theorems -/

/-- C4 (amended): every bucket list is sorted by count descending.  Ties
follow the grouping structure's own order, not necessarily ascending name:
on the Lake path the grouped frame is in ascending key order and the stable
sort therefore leaves ties in ascending name order, while on the Graph
path the stable sort leaves ties in the accumulator's insertion
(first-occurrence) order — the output is deterministic given the record
sequence on both paths. -/
theorem c4_sorted_count_desc_tiebreak :
    (∀ (f : Frame) (col : String) (limit : Option ℕ),
      (aggregateByFast f col limit).Pairwise
        (fun a b => b.count < a.count ∨ (a.count = b.count ∧ a.name.data < b.name.data)))
    ∧ (∀ (l : List (String × Acc)) (c : ℕ),
        (stableSortDesc (fun x => x.2.count) l).filter (fun x => x.2.count = c)
          = l.filter (fun x => x.2.count = c))
    ∧ (∀ (l : List (String × Acc)) (limit : ℕ),
        (mainFormatAgg l limit).Pairwise (fun a b => b.count ≤ a.count)) := by
  refine ⟨?_, ?_, ?_⟩
  · intro f col limit
    rw [aggregateByFast]
    by_cases hc : f.cols.contains col
    · rw [if_neg (by simpa using hc)]
      have hmap : ((keysAsc f.rows col).map (statsFor f.rows col)).Pairwise
          (fun a b => a.name.data < b.name.data) :=
        List.Pairwise.map _ (fun a b hab => by simpa [statsFor_name] using hab)
          (pairwise_lt_keysAsc f.rows col)
      have hpre : (aggregateByFastPre f.rows col).Pairwise
          (fun a b => b.count < a.count ∨ (a.count = b.count ∧ a.name.data < b.name.data)) :=
        pairwise_stableSortDesc (fun b : Bucket => b.count) (fun b : Bucket => b.name.data)
          _ hmap
      cases limit with
      | none => exact hpre
      | some n =>
        by_cases hn : n = 0
        · simpa [takeIfLimit, hn] using hpre
        · simp only [takeIfLimit, if_neg hn]
          exact hpre.sublist (List.take_sublist n _)
    · rw [if_pos (by simpa using hc)]
      exact List.Pairwise.nil
  · intro l c
    exact filter_stableSortDesc (fun x => x.2.count) c l
  · intro l limit
    rw [mainFormatAgg]
    refine List.Pairwise.sublist (List.take_sublist _ _) ?_
    exact List.Pairwise.map _ (fun a b hab => hab)
      (pairwise_ge_stableSortDesc (fun x => x.2.count) l)

/-- C9 (amended): on the row-listing path a filter whose column is absent
from the frame shape is a no-op for every field; on the aggregation path
only the `model` and `floorplan` filters are guarded — with both of those
columns absent, a request filtering only on them passes every row through,
while the other five categorical filters error on an absent column
(the counterexample theorem). -/
theorem c9_missing_column_semantics :
    (∀ (f : Frame) (col : String) (v : Option String),
      f.cols.contains col = false → applyFilter f col v = f)
    ∧ (∀ (f : Frame) (mv fv : String),
        f.cols.contains "model" = false → f.cols.contains "floorplan" = false →
        maskFilteredRows f ⟨none, none, none, none, none, some mv, some fv, none, none⟩
          = .ok f.rows) := by
  constructor
  · intro f col v h
    cases v with
    | none => rfl
    | some s =>
      rw [applyFilter]
      rw [if_pos (Or.inr (by simpa using h))]
  · intro f mv fv h1 h2
    have h1' : ¬ ("model" ∈ f.cols) := by simpa using h1
    have h2' : ¬ ("floorplan" ∈ f.cols) := by simpa using h2
    by_cases hmv : mv = "" <;> by_cases hfv : fv = "" <;>
      simp [maskFilteredRows, maskCat, maskPriceMin, maskPriceMax, h1', h2', hmv, hfv,
        Except.bind, Bind.bind]

/-- Witness for C9 at a concrete frame lacking the columns. -/
theorem c9_missing_column_semantics_witness :
    applyFilter framePriceState "rv_type" (some "X") = framePriceState
    ∧ maskFilteredRows framePriceState
        ⟨none, none, none, none, none, some "M", some "F", none, none⟩
        = .ok framePriceState.rows :=
  ⟨c9_missing_column_semantics.1 framePriceState "rv_type" (some "X") (by decide),
    c9_missing_column_semantics.2 framePriceState "M" "F" (by decide) (by decide)⟩

theorem cols_applyFilter (f : Frame) (col : String) (v : Option String) :
    (applyFilter f col v).cols = f.cols := by
  cases v with
  | none => rfl
  | some s =>
    rw [applyFilter]
    by_cases h : s = "" ∨ ¬ f.cols.contains col
    · rw [if_pos h]
    · rw [if_neg h]

theorem mem_applyFilter (f : Frame) (col : String) (v : String) (r : Row)
    (hc : f.cols.contains col = true) (hv : v ≠ "") :
    r ∈ (applyFilter f col (some v)).rows ↔
      r ∈ f.rows ∧ rowMatches r col (parseMultiValue v) = true := by
  rw [applyFilter, if_neg]
  · simp [List.mem_filter]
  · rintro (h | h)
    · exact hv h
    · exact h hc

/-- C5 (amended): on the Lake path a comma-separated filter keeps exactly
the rows whose cell equals one of the listed values (OR within the field),
several filters combine with AND across fields, and the two scenario
queries return all 4 records resp. exactly the CA/USED record.  The Graph
client's in-memory listing instead compares the raw parameter string
(no comma splitting), so `state=CA,TX` matches nothing there (the
counterexample theorem); AND across fields holds on both paths. -/
theorem c5_filter_or_and_semantics :
    (∀ (f : Frame) (col : String) (v : String) (r : Row),
      f.cols.contains col = true → v ≠ "" →
      (r ∈ (applyFilter f col (some v)).rows ↔
        r ∈ f.rows ∧ rowMatches r col (parseMultiValue v) = true))
    ∧ (∀ (f : Frame) (c1 v1 c2 v2 : String) (r : Row),
        f.cols.contains c1 = true → f.cols.contains c2 = true → v1 ≠ "" → v2 ≠ "" →
        (r ∈ (applyFilter (applyFilter f c1 (some v1)) c2 (some v2)).rows ↔
          r ∈ f.rows ∧ rowMatches r c1 (parseMultiValue v1) = true
            ∧ rowMatches r c2 (parseMultiValue v2) = true))
    ∧ parseMultiValue "CA,TX" = ["CA", "TX"]
    ∧ lakeGetCachedInventory demoFrame none none none none none (some "CA,TX") none none
        none none 100 = .ok [demoRowCA1, demoRowCA2, demoRowTX1, demoRowTX2]
    ∧ lakeGetCachedInventory demoFrame none none none none (some "USED") (some "CA")
        none none none none 100 = .ok [demoRowCA2] := by
  refine ⟨mem_applyFilter, ?_, by decide, by decide, by decide⟩
  intro f c1 v1 c2 v2 r h1 h2 hv1 hv2
  rw [mem_applyFilter _ _ _ _ (by rw [cols_applyFilter]; exact h2) hv2,
    mem_applyFilter _ _ _ _ h1 hv1]
  tauto

/-- Witness for C5 on the scenario frame: the CA/USED record passes the
two-field AND filter. -/
theorem c5_filter_or_and_semantics_witness :
    demoRowCA2 ∈ (applyFilter (applyFilter demoFrame "state" (some "CA"))
        "condition" (some "USED")).rows ↔
      demoRowCA2 ∈ demoFrame.rows
        ∧ rowMatches demoRowCA2 "state" (parseMultiValue "CA") = true
        ∧ rowMatches demoRowCA2 "condition" (parseMultiValue "USED") = true :=
  c5_filter_or_and_semantics.2.1 demoFrame "state" "CA" "condition" "USED" demoRowCA2
    (by decide) (by decide) (by decide) (by decide)

/-- C10: the Graph client's joined cache coerces null prices and
days-on-lot to 0 at build time; a 0-priced record passes a `min_price`
filter exactly when the bound is ≤ 0, adds 0 to `total_value`, and is
excluded from the price statistics solely because they are computed over
the strictly positive prices. -/
theorem c10_null_price_coercion :
    (∀ (products : List (ℕ × ProductDim)) (floorplans : List (ℕ × FloorDim))
       (dealers : List (ℕ × DealerDim)) (it : RawItem),
      (joinItem products floorplans dealers it).price = it.price.getD 0
      ∧ (joinItem products floorplans dealers it).days_on_lot = it.days_on_lot.getD 0)
    ∧ (∀ (items : List RawItem) (products : List (ℕ × ProductDim))
        (floorplans : List (ℕ × FloorDim)) (dealers : List (ℕ × DealerDim)) (r : CRec),
        r ∈ loadInventoryCache items products floorplans dealers →
        ∃ it ∈ items, r = joinItem products floorplans dealers it)
    ∧ (∀ (mp : ℚ) (r : CRec), r.price = 0 → (stepMin [r] (some mp) = [r] ↔ mp ≤ 0))
    ∧ (∀ (r : CRec) (recs : List CRec), r.price = 0 →
        mainTotalValue (r :: recs) = mainTotalValue recs
        ∧ mainAllPrices (r :: recs) = mainAllPrices recs)
    ∧ (∀ (r : CRec) (recs : List CRec), 0 < r.price →
        mainAllPrices (r :: recs) = r.price :: mainAllPrices recs) := by
  refine ⟨fun products floorplans dealers it => ⟨rfl, rfl⟩, ?_, ?_, ?_, ?_⟩
  · intro items products floorplans dealers r hr
    rcases List.mem_map.mp hr with ⟨it, hit, rfl⟩
    exact ⟨it, hit, rfl⟩
  · intro mp r h
    by_cases hle : mp ≤ 0
    · simp [stepMin, h, hle]
    · simp [stepMin, h, hle]
  · intro r recs h
    constructor
    · simp [mainTotalValue, h]
    · simp [mainAllPrices, List.filterMap_cons, h]
  · intro r recs h
    simp [mainAllPrices, List.filterMap_cons, h]

/-- Witness for C10 at the null-priced raw item and the 0-priced cached
record. -/
theorem c10_null_price_coercion_witness :
    (joinItem demoProducts demoFloorplans demoDealers demoItemNull).price
        = demoItemNull.price.getD 0
    ∧ (stepMin [demoCRecTX2] (some 0) = [demoCRecTX2] ↔ (0 : ℚ) ≤ 0)
    ∧ mainAllPrices [demoCRecTX2] = mainAllPrices []
    ∧ mainAllPrices (demoCRecTX1 :: []) = demoCRecTX1.price :: mainAllPrices [] :=
  ⟨(c10_null_price_coercion.1 demoProducts demoFloorplans demoDealers demoItemNull).1,
    c10_null_price_coercion.2.2.1 0 demoCRecTX2 (by decide),
    (c10_null_price_coercion.2.2.2.1 demoCRecTX2 [] (by decide)).2,
    c10_null_price_coercion.2.2.2.2 demoCRecTX1 [] (by decide)⟩

/-- Every bucket of `_aggregate_by_fast` stems from a key actually present
in the grouped column. -/
theorem mem_aggregateByFast_key (f : Frame) (col : String) (limit : Option ℕ) (b : Bucket)
    (h : b ∈ aggregateByFast f col limit) :
    b.name ∈ keysAsc f.rows col ∧ b = statsFor f.rows col b.name := by
  rw [aggregateByFast] at h
  by_cases hc : f.cols.contains col
  · rw [if_neg (by simpa using hc)] at h
    have h1 : b ∈ aggregateByFastPre f.rows col := mem_takeIfLimit limit _ b h
    rw [aggregateByFastPre, mem_stableSortDesc] at h1
    rcases List.mem_map.mp h1 with ⟨k, hk, rfl⟩
    rw [statsFor_name]
    exact ⟨hk, rfl⟩
  · rw [if_pos (by simpa using hc)] at h
    exact absurd h (List.not_mem_nil b)

/-- C2 (amended): the claimed bucket invariants hold on the Lake path —
every emitted bucket is the statistics row of its group, with `count` the
group size (non-null stock numbers), `total_value` the sum of non-null
prices, `avg_price = total_value / priced_count`, and `min`/`max` the
extrema of the non-null prices, defaulting to 0 when the group has no
priced record; the `condition=NEW` `by_state` scenario yields the claimed
buckets there.  On the Graph client's on-demand path only the `rv_type`
and `condition` breakdowns collect per-record prices; for the others
`avg_price` is `total_value` over the *total* count and `min`/`max` are 0,
so the scenario's TX `by_state` bucket has `avg_price` 100, not 200 (the
counterexample theorem). -/
theorem c2_lake_bucket_invariants :
    (∀ (f : Frame) (col : String) (limit : Option ℕ) (b : Bucket),
      b ∈ aggregateByFast f col limit → b = statsFor f.rows col b.name)
    ∧ (∀ (rows : List Row) (col k : String),
        ((∀ r ∈ groupOf rows col k, r.stock_number.isSome = true) →
          (statsFor rows col k).count = (groupOf rows col k).length)
        ∧ (statsFor rows col k).total_value = (pricedOf (groupOf rows col k)).sum
        ∧ (pricedOf (groupOf rows col k) ≠ [] →
            (statsFor rows col k).avg_price
              = (statsFor rows col k).total_value
                  / ((pricedOf (groupOf rows col k)).length : ℚ)
            ∧ (statsFor rows col k).min_price ∈ pricedOf (groupOf rows col k)
            ∧ (∀ q ∈ pricedOf (groupOf rows col k), (statsFor rows col k).min_price ≤ q)
            ∧ (statsFor rows col k).max_price ∈ pricedOf (groupOf rows col k)
            ∧ (∀ q ∈ pricedOf (groupOf rows col k), q ≤ (statsFor rows col k).max_price))
        ∧ (pricedOf (groupOf rows col k) = [] →
            (statsFor rows col k).avg_price = 0
            ∧ (statsFor rows col k).min_price = 0
            ∧ (statsFor rows col k).max_price = 0))
    ∧ buildAggregationResponse demoFrame demoNewParams
        = .ok ⟨3, 300, 150, 100, 200, [], [], [],
            [⟨"NEW", 3, 300, 150, 100, 200, none⟩],
            [⟨"TX", 2, 200, 200, 200, 200, none⟩, ⟨"CA", 1, 100, 100, 100, 100, none⟩],
            [], [], []⟩ := by
  refine ⟨fun f col limit b h => (mem_aggregateByFast_key f col limit b h).2, ?_, ?_⟩
  · intro rows col k
    refine ⟨?_, rfl, ?_, ?_⟩
    · intro h
      show (List.filter (fun r => r.stock_number.isSome) (groupOf rows col k)).length = _
      rw [List.filter_eq_self.mpr h]
    · intro hne
      have hlen : (pricedOf (groupOf rows col k)).length ≠ 0 :=
        fun h0 => hne (List.length_eq_zero.mp h0)
      refine ⟨?_, ?_⟩
      · show meanQ (pricedOf (groupOf rows col k)) = _
        rw [meanQ, if_neg hlen]
        rfl
      · rcases hms : (pricedOf (groupOf rows col k)).min? with _ | m
        · exfalso
          rcases List.exists_cons_of_ne_nil hne with ⟨a, t, he⟩
          rw [he, List.min?_cons] at hms
          exact Option.noConfusion hms
        · rcases hmx : (pricedOf (groupOf rows col k)).max? with _ | m'
          · exfalso
            rcases List.exists_cons_of_ne_nil hne with ⟨a, t, he⟩
            rw [he, List.max?_cons] at hmx
            exact Option.noConfusion hmx
          · rcases (qmin_spec _ m).mp hms with ⟨hmem, hle⟩
            rcases (qmax_spec _ m').mp hmx with ⟨hmem', hle'⟩
            have e1 : (statsFor rows col k).min_price = m := by
              show (pricedOf (groupOf rows col k)).min?.getD 0 = m
              rw [hms]
              rfl
            have e2 : (statsFor rows col k).max_price = m' := by
              show (pricedOf (groupOf rows col k)).max?.getD 0 = m'
              rw [hmx]
              rfl
            rw [e1, e2]
            exact ⟨hmem, hle, hmem', hle'⟩
    · intro he
      refine ⟨?_, ?_, ?_⟩
      · show meanQ (pricedOf (groupOf rows col k)) = 0
        rw [he]
        rfl
      · show (pricedOf (groupOf rows col k)).min?.getD 0 = 0
        rw [he]
        rfl
      · show (pricedOf (groupOf rows col k)).max?.getD 0 = 0
        rw [he]
        rfl
  · norm_num +decide [buildAggregationResponse, maskFilteredRows, maskCat, maskPriceMin,
      maskPriceMax, demoNewParams, AggParams.noFilter, demoFrame, stdCols, Except.bind,
      Bind.bind, aggregateByFast, takeIfLimit, aggregateByFastPre, keysAsc, statsFor, groupOf,
      pricedOf, meanQ, stableSortDesc, insDesc, strAsc, Row.getStr, demoRowCA1, demoRowCA2,
      demoRowTX1, demoRowTX2, Row.base, List.insertionSort, List.orderedInsert,
      List.filterMap_cons, List.filterMap_nil, List.filter_cons, List.filter_nil,
      List.min?, List.max?, min_def, max_def, rowMatches, parseMultiValue, splitCommaChars,
      pyStrip, isWS]

/-- Witness for C2: the priceless one-record frame exercises the
membership conjunct without price statistics, and the TX group of the
scenario frame exercises the priced formulas. -/
theorem c2_lake_bucket_invariants_witness :
    (⟨"CA", 1, 0, 0, 0, 0, none⟩ : Bucket)
        = statsFor demoFrameNoPrices.rows "state" (⟨"CA", 1, 0, 0, 0, 0, none⟩ : Bucket).name
    ∧ (statsFor demoFrame.rows "state" "TX").total_value
        = (pricedOf (groupOf demoFrame.rows "state" "TX")).sum
    ∧ (statsFor demoFrame.rows "state" "TX").min_price
        ∈ pricedOf (groupOf demoFrame.rows "state" "TX") :=
  ⟨c2_lake_bucket_invariants.1 demoFrameNoPrices "state" none _ (by decide),
    (c2_lake_bucket_invariants.2.1 demoFrame.rows "state" "TX").2.1,
    ((c2_lake_bucket_invariants.2.1 demoFrame.rows "state" "TX").2.2.1 (by decide)).2.1⟩

theorem sum_indicator_countP {α : Type} (l : List α) (p : α → Bool) :
    (l.map (fun a => if p a then (1 : ℕ) else 0)).sum = l.countP p := by
  induction l with
  | nil => rfl
  | cons a t ih =>
    by_cases h : p a <;> simp [List.countP_cons, h, ih, Nat.add_comm]

/-- C8 (amended): rows whose grouping cell is null are excluded from the
per-bucket breakdown on both paths — no "Unknown" bucket is produced (the
`fillna('Unknown')` runs after pandas `groupby` has already dropped the
null keys).  The bucket counts sum to the number of rows with a *non-null*
grouping value, and every bucket name is a value actually present in the
column. -/
theorem c8_null_groups_excluded :
    (∀ (f : Frame) (col : String),
      f.cols.contains col = true →
      (∀ r ∈ f.rows, r.stock_number.isSome = true) →
      ((aggregateByFast f col none).map Bucket.count).sum
        = (f.rows.filter (fun r => (r.getStr col).isSome)).length)
    ∧ (∀ (f : Frame) (col : String) (limit : Option ℕ) (b : Bucket),
        b ∈ aggregateByFast f col limit → ∃ r ∈ f.rows, r.getStr col = some b.name) := by
  constructor
  · intro f col hc hstock
    rw [aggregateByFast, if_neg (by simpa using hc)]
    show ((aggregateByFastPre f.rows col).map Bucket.count).sum = _
    rw [aggregateByFastPre]
    have hperm :
        List.Perm ((stableSortDesc (fun b : Bucket => b.count)
            ((keysAsc f.rows col).map (statsFor f.rows col))).map Bucket.count)
          (((keysAsc f.rows col).map (statsFor f.rows col)).map Bucket.count) :=
      (perm_stableSortDesc (fun b : Bucket => b.count)
        ((keysAsc f.rows col).map (statsFor f.rows col))).map Bucket.count
    rw [hperm.sum_eq, List.map_map]
    have hkey : ∀ k ∈ keysAsc f.rows col,
        (Bucket.count ∘ statsFor f.rows col) k
          = ((f.rows.filter (fun r => r.getStr col = some k)).map (fun _ => (1 : ℕ))).sum := by
      intro k _
      show ((groupOf f.rows col k).filter (fun r => r.stock_number.isSome)).length = _
      simp only [groupOf]
      rw [List.filter_eq_self.mpr (fun r hr => hstock r (List.mem_of_mem_filter hr)),
        sum_map_one]
    rw [List.map_congr_left hkey,
      sum_sum_keys (keysAsc f.rows col) (nodup_keysAsc f.rows col) f.rows
        (fun r => r.getStr col) (fun _ _ => (1 : ℕ)),
      ← List.countP_eq_length_filter, ← sum_indicator_countP]
    refine congrArg List.sum (List.map_congr_left ?_)
    intro r hr
    cases hg : r.getStr col with
    | none => simp [hg]
    | some k =>
      have hk : k ∈ keysAsc f.rows col := (mem_keysAsc f.rows col k).mpr ⟨r, hr, hg⟩
      simp [hg, hk]
  · intro f col limit b h
    rcases mem_aggregateByFast_key f col limit b h with ⟨hk, _⟩
    exact (mem_keysAsc f.rows col b.name).mp hk

/-- Witness for C8 on the two-row frame with one null state. -/
theorem c8_null_groups_excluded_witness :
    ((aggregateByFast demoFrameNullState "state" none).map Bucket.count).sum
        = (demoFrameNullState.rows.filter (fun r => (r.getStr "state").isSome)).length
    ∧ ∃ r ∈ demoFrameNoPrices.rows,
        r.getStr "state" = some (⟨"CA", 1, 0, 0, 0, 0, none⟩ : Bucket).name :=
  ⟨c8_null_groups_excluded.1 demoFrameNullState "state" (by decide) (by decide),
    c8_null_groups_excluded.2 demoFrameNoPrices "state" none _ (by decide)⟩

theorem maskCat_exists_ok (f : Frame) (rows : List Row) (col : String) (v : Option String)
    (guarded : Bool) (hc : f.cols.contains col = true ∨ guarded = true)
    (hv : paramOk v = true) :
    ∃ rows2, maskCat f rows col v guarded = .ok rows2 := by
  cases v with
  | none => exact ⟨rows, rfl⟩
  | some s =>
    rw [maskCat]
    by_cases hs : s = ""
    · rw [if_pos hs]
      exact ⟨rows, rfl⟩
    · rw [if_neg hs]
      have hne : ¬ (parseMultiValue s = []) := by
        intro he
        simp [paramOk, hs, he] at hv
      by_cases hcc : f.cols.contains col
      · rw [if_pos hcc, if_neg hne]
        exact ⟨_, rfl⟩
      · rcases hc with hc | hc
        · exact absurd hc hcc
        · rw [if_neg hcc, hc, if_pos rfl]
          exact ⟨rows, rfl⟩

theorem maskPriceMin_exists_ok (f : Frame) (rows : List Row) (mn : Option ℚ)
    (hc : f.cols.contains "price" = true) :
    ∃ rows2, maskPriceMin f rows mn = .ok rows2 := by
  cases mn with
  | none => exact ⟨rows, rfl⟩
  | some q =>
    rw [maskPriceMin, if_pos hc]
    exact ⟨_, rfl⟩

theorem maskPriceMax_exists_ok (f : Frame) (rows : List Row) (mx : Option ℚ)
    (hc : f.cols.contains "price" = true) :
    ∃ rows2, maskPriceMax f rows mx = .ok rows2 := by
  cases mx with
  | none => exact ⟨rows, rfl⟩
  | some q =>
    rw [maskPriceMax, if_pos hc]
    exact ⟨_, rfl⟩

/-- C7 (amended): on the aggregation path, a frame with the standard
columns makes every *well-formed* filter combination succeed — each
supplied categorical value must comma-split to at least one non-empty
value — and an empty filtered subset returns exactly
`_empty_aggregation_response`, whose numeric fields are all 0 and whose
`by_*` lists are all empty.  A truthy parameter splitting to no values
(`rv_type=","`) instead raises IndexError at `values[0]`, so the guarantee
does not extend to every filter.  The empty *sales-velocity* response
keeps `total_sold = 0` and empty breakdown lists but carries `None` in its
six statistics fields (the counterexample theorem), so the all-zero
contract holds only for the aggregation response. -/
theorem c7_empty_responses :
    (∀ (f : Frame) (p : AggParams), HasStdCols f → aggParamsOk p = true →
      ∃ rows, maskFilteredRows f p = .ok rows)
    ∧ (∀ (f : Frame) (p : AggParams) (rows : List Row),
        maskFilteredRows f p = .ok rows → rows = [] →
        buildAggregationResponse f p = .ok emptyAggregationResponse)
    ∧ buildAggregationResponse demoFrame demoMalformedParams = .error "IndexError"
    ∧ emptyAggregationResponse = ⟨0, 0, 0, 0, 0, [], [], [], [], [], [], [], []⟩
    ∧ emptySalesVelocityResponse.total_sold = 0
    ∧ emptySalesVelocityResponse.by_rv_type = []
    ∧ emptySalesVelocityResponse.by_condition = []
    ∧ emptySalesVelocityResponse.by_dealer_group = []
    ∧ emptySalesVelocityResponse.by_manufacturer = []
    ∧ emptySalesVelocityResponse.by_state = []
    ∧ emptySalesVelocityResponse.by_region = []
    ∧ emptySalesVelocityResponse.by_month = [] := by
  refine ⟨?_, ?_, by decide, rfl, rfl, rfl, rfl, rfl, rfl, rfl, rfl, rfl⟩
  · intro f p hs hok
    simp only [aggParamsOk, Bool.and_eq_true] at hok
    obtain ⟨⟨⟨⟨⟨⟨hv1, hv2⟩, hv3⟩, hv4⟩, hv5⟩, hv6⟩, hv7⟩ := hok
    obtain ⟨r1, h1⟩ := maskCat_exists_ok f f.rows "rv_type" p.rv_type false
      (Or.inl (hs _ (by decide))) hv1
    obtain ⟨r2, h2⟩ := maskCat_exists_ok f r1 "dealer_group" p.dealer_group false
      (Or.inl (hs _ (by decide))) hv2
    obtain ⟨r3, h3⟩ := maskCat_exists_ok f r2 "manufacturer" p.manufacturer false
      (Or.inl (hs _ (by decide))) hv3
    obtain ⟨r4, h4⟩ := maskCat_exists_ok f r3 "condition" p.condition false
      (Or.inl (hs _ (by decide))) hv4
    obtain ⟨r5, h5⟩ := maskCat_exists_ok f r4 "state" p.state false
      (Or.inl (hs _ (by decide))) hv5
    obtain ⟨r6, h6⟩ := maskCat_exists_ok f r5 "model" p.model true (Or.inr rfl) hv6
    obtain ⟨r7, h7⟩ := maskCat_exists_ok f r6 "floorplan" p.floorplan true (Or.inr rfl) hv7
    obtain ⟨r8, h8⟩ := maskPriceMin_exists_ok f r7 p.min_price (hs _ (by decide))
    obtain ⟨r9, h9⟩ := maskPriceMax_exists_ok f r8 p.max_price (hs _ (by decide))
    exact ⟨r9, by
      simp [maskFilteredRows, h1, h2, h3, h4, h5, h6, h7, h8, h9, Except.bind, Bind.bind]⟩
  · intro f p rows h hrows
    subst hrows
    simp [buildAggregationResponse, h, Except.bind, Bind.bind]

/-- Witness for C7: the `state=ZZ` filter is well-formed, matches no
scenario record, and returns the all-zero empty response. -/
theorem c7_empty_responses_witness :
    (∃ rows, maskFilteredRows demoFrame demoNoMatchParams = .ok rows)
    ∧ buildAggregationResponse demoFrame demoNoMatchParams = .ok emptyAggregationResponse :=
  ⟨c7_empty_responses.1 demoFrame demoNoMatchParams (by unfold HasStdCols; decide) (by decide),
    c7_empty_responses.2.1 demoFrame demoNoMatchParams [] (by decide) rfl⟩

theorem joinItem_rv_type (products : List (ℕ × ProductDim)) (floorplans : List (ℕ × FloorDim))
    (dealers : List (ℕ × DealerDim)) (it : RawItem) :
    (joinItem products floorplans dealers it).rv_type
      = (it.product_model_skey.bind (fun n => products.lookup n)).bind ProductDim.rv_type := by
  rw [joinItem]
  cases h : it.product_model_skey.bind (fun n => products.lookup n) with
  | none => simp [h]
  | some pm => simp [h]

theorem rvOf_eq_some_iff (products : List (ℕ × ProductDim)) (k : ℕ) (name : String)
    (hname : name ≠ "") :
    rvOf products k = some name ↔ (products.lookup k).bind ProductDim.rv_type = some name := by
  rw [rvOf]
  cases h : (products.lookup k).bind ProductDim.rv_type with
  | none => simp
  | some v =>
    by_cases hv : v = ""
    · subst hv
      simp only [reduceIte, Option.some.injEq]
      exact ⟨fun he => absurd he (by simp), fun he => absurd he.symm hname⟩
    · simp [hv]

/-- C1 (amended): over the same raw collection — with every record priced
and resolving through the product dimension — the startup snapshot's
`by_rv_type` grouping agrees with the on-demand in-memory grouping on
every bucket name's `count` and `total_value`; but each precomputed bucket
hardcodes `min_price = max_price = 0`, so the snapshot is not
bucket-for-bucket reproducible by the on-demand path whenever any group
holds a positively priced unit (the counterexample theorem). -/
theorem c1_precompute_refines_ondemand :
    ∀ (items : List RawItem) (products : List (ℕ × ProductDim))
      (floorplans : List (ℕ × FloorDim)) (dealers : List (ℕ × DealerDim)),
      (∀ it ∈ items, it.price.isSome = true) →
      (∀ it ∈ items, ∃ k, it.product_model_skey = some k ∧ k ≠ 0
        ∧ (rvOf products k).isSome = true) →
      (∀ name, name ≠ "" →
        wcountOf (precomputeRvGroups items products) name
          = acountOf (groupsBy CRec.rv_type true
              (loadInventoryCache items products floorplans dealers)) name
        ∧ wtotalOf (precomputeRvGroups items products) name
          = atotalOf (groupsBy CRec.rv_type true
              (loadInventoryCache items products floorplans dealers)) name)
      ∧ (∀ b ∈ buildAggCacheByRvType items products,
          b.min_price = 0 ∧ b.max_price = 0) := by
  intro items products floorplans dealers hprice hdim
  constructor
  · intro name hname
    have hKnd : ((skeysOf items).filter
        (fun k => decide (rvOf products k = some name))).Nodup :=
      (nodup_skeysOf items).filter _
    have hmemK : ∀ it ∈ items, ∀ k, it.product_model_skey = some k → k ≠ 0 →
        (k ∈ (skeysOf items).filter (fun k => decide (rvOf products k = some name))
          ↔ rvOf products k = some name) := by
      intro it hit k hsk hk0
      rw [List.mem_filter]
      constructor
      · rintro ⟨_, h⟩
        exact of_decide_eq_true h
      · intro h
        exact ⟨(mem_skeysOf items k).mpr ⟨hk0, it, hit, hsk⟩, decide_eq_true h⟩
    constructor
    · -- per-name counts agree
      rw [wcountOf_precompute, acountOf_groupsBy CRec.rv_type true _ name hname,
        loadInventoryCache, List.countP_map,
        ← sum_map_filter (skeysOf items) (fun k => rvOf products k = some name)
          (fun k => gqlCount (skeyGroup items k))]
      have hcong : ∀ k ∈ (skeysOf items).filter
          (fun k => decide (rvOf products k = some name)),
          gqlCount (skeyGroup items k)
            = ((items.filter (fun it => it.product_model_skey = some k)).map
                (fun _ => (1 : ℕ))).sum := by
        intro k _
        rw [gqlCount, gqlPrices]
        simp only [skeyGroup]
        rw [length_filterMap_price _ (fun it hit => hprice it (List.mem_of_mem_filter hit)),
          sum_map_one]
      rw [List.map_congr_left hcong,
        sum_sum_keys _ hKnd items (fun it => it.product_model_skey) (fun _ _ => (1 : ℕ)),
        ← sum_indicator_countP]
      refine congrArg List.sum (List.map_congr_left ?_)
      intro it hit
      rcases hdim it hit with ⟨k, hsk, hk0, hrv⟩
      have hchain : (joinItem products floorplans dealers it).rv_type
          = (products.lookup k).bind ProductDim.rv_type := by
        rw [joinItem_rv_type, hsk]
        rfl
      by_cases hr : rvOf products k = some name
      · have h1 : k ∈ (skeysOf items).filter
            (fun k => decide (rvOf products k = some name)) :=
          (hmemK it hit k hsk hk0).mpr hr
        have h2 : (joinItem products floorplans dealers it).rv_type = some name := by
          rw [hchain]
          exact (rvOf_eq_some_iff products k name hname).mp hr
        simp [hsk, h1, h2]
      · have h1 : k ∉ (skeysOf items).filter
            (fun k => decide (rvOf products k = some name)) :=
          fun hmem => hr ((hmemK it hit k hsk hk0).mp hmem)
        have h2 : ¬ (joinItem products floorplans dealers it).rv_type = some name := by
          rw [hchain]
          exact fun he => hr ((rvOf_eq_some_iff products k name hname).mpr he)
        simp [hsk, h1, h2]
    · -- per-name totals agree
      rw [wtotalOf_precompute, atotalOf_groupsBy CRec.rv_type true _ name hname,
        loadInventoryCache, List.filter_map, List.map_map,
        ← sum_map_filter (skeysOf items) (fun k => rvOf products k = some name)
          (fun k => gqlSum (skeyGroup items k))]
      have hcong : ∀ k ∈ (skeysOf items).filter
          (fun k => decide (rvOf products k = some name)),
          gqlSum (skeyGroup items k)
            = ((items.filter (fun it => it.product_model_skey = some k)).map
                (fun it => it.price.getD 0)).sum := by
        intro k _
        rw [gqlSum, gqlPrices]
        simp only [skeyGroup]
        rw [sum_filterMap_price]
      rw [List.map_congr_left hcong,
        sum_sum_keys _ hKnd items (fun it => it.product_model_skey)
          (fun _ it => it.price.getD 0),
        sum_map_filterB items
          ((fun r => decide (r.rv_type = some name)) ∘ joinItem products floorplans dealers)
          (CRec.price ∘ joinItem products floorplans dealers)]
      refine congrArg List.sum (List.map_congr_left ?_)
      intro it hit
      rcases hdim it hit with ⟨k, hsk, hk0, hrv⟩
      have hchain : (joinItem products floorplans dealers it).rv_type
          = (products.lookup k).bind ProductDim.rv_type := by
        rw [joinItem_rv_type, hsk]
        rfl
      have hpr : (joinItem products floorplans dealers it).price = it.price.getD 0 := rfl
      by_cases hr : rvOf products k = some name
      · have h1 : k ∈ (skeysOf items).filter
            (fun k => decide (rvOf products k = some name)) :=
          (hmemK it hit k hsk hk0).mpr hr
        have h2 : (joinItem products floorplans dealers it).rv_type = some name := by
          rw [hchain]
          exact (rvOf_eq_some_iff products k name hname).mp hr
        simp [hsk, h1, h2, hpr]
      · have h1 : k ∉ (skeysOf items).filter
            (fun k => decide (rvOf products k = some name)) :=
          fun hmem => hr ((hmemK it hit k hsk hk0).mp hmem)
        have h2 : ¬ (joinItem products floorplans dealers it).rv_type = some name := by
          rw [hchain]
          exact fun he => hr ((rvOf_eq_some_iff products k name hname).mpr he)
        simp [hsk, h1, h2]
  · intro b hb
    rw [buildAggCacheByRvType] at hb
    simp only [cacheFormatAgg] at hb
    norm_num at hb
    have hb' : b ∈ (stableSortDesc (fun x : String × WAcc => x.2.count)
        (precomputeRvGroups items products)).map (fun x => cacheBucket x.1 x.2) :=
      List.mem_of_mem_take hb
    rcases List.mem_map.mp hb' with ⟨x, _, rfl⟩
    exact ⟨rfl, rfl⟩

/-- Witness for C1 at the one-record collection. -/
theorem c1_precompute_refines_ondemand_witness :
    wcountOf (precomputeRvGroups [demoItemA] demoProducts) "A"
        = acountOf (groupsBy CRec.rv_type true
            (loadInventoryCache [demoItemA] demoProducts demoFloorplans demoDealers)) "A"
    ∧ ∀ b ∈ buildAggCacheByRvType [demoItemA] demoProducts,
        b.min_price = 0 ∧ b.max_price = 0 :=
  ⟨((c1_precompute_refines_ondemand [demoItemA] demoProducts demoFloorplans demoDealers
      (by decide) (by decide)).1 "A" (by decide)).1,
    (c1_precompute_refines_ondemand [demoItemA] demoProducts demoFloorplans demoDealers
      (by decide) (by decide)).2⟩

end MarketIntel
